import Mathlib

/-! # Hospital patient registry (`src/Hospital.cpp`)

A shallow embedding of the `Patient` structure and the `Hospital` class, and the
properties of admission, discharge and treatment that follow from the code.

Modelling conventions.

* `int` fields (`id`, `age`) are `Int`; the program never does arithmetic on them.
* `vector<int> rooms` is a `List Int` (`0` = vacant, `1` = occupied).  The vector is
  built from an `int` room count and never resized, so every index and every
  `roomNumber + 1` fits in an `int`: no wrap-around is reachable and indices are
  plain numbers.
* `list<Patient> patientRecords` and `queue<Patient> stablePatients` are lists, the
  front of the queue being the head of the list.
* `priority_queue<Patient> criticalPatients` is its underlying vector, a `List
  Patient`, reorganised by the binary-heap routines `push_heap` / `pop_heap` as GNU
  libstdc++ implements them (`bits/stl_heap.h`), with `Patient::operator<` as the
  comparison.
* What a member function prints is returned as an `Output` value next to the new
  state.
-/

set_option autoImplicit false

/-- Structure to store patient details (`struct Patient`). -/
structure Patient where
  id : Int
  name : String
  age : Int
  condition : String
  admissionDate : String
deriving DecidableEq, Repr, Inhabited

/-- Comparator for the priority queue, `Patient::operator<`:
`condition != "Critical" && other.condition == "Critical"`. -/
def Patient.lt (self other : Patient) : Bool :=
  self.condition != "Critical" && other.condition == "Critical"

/-! ## The heap routines behind `std::priority_queue` -/

namespace StlHeap

/-- The loop of `std::__push_heap(first, holeIndex, topIndex, value, comp)`: the hole
climbs towards `topIndex` while its parent compares below `value`; `value` is stored in
the final hole.  The first argument bounds the number of iterations; the hole index
strictly decreases, so `holeIndex` iterations always suffice. -/
def push_heap_loop (topIndex : Nat) (value : Patient) :
    Nat → List Patient → Nat → List Patient
  | 0, first, holeIndex => first.set holeIndex value
  | fuel + 1, first, holeIndex =>
    let parent := (holeIndex - 1) / 2
    if holeIndex > topIndex && (first.getD parent value).lt value then
      push_heap_loop topIndex value fuel (first.set holeIndex (first.getD parent value)) parent
    else
      first.set holeIndex value

/-- The function `std::__push_heap`. -/
def push_heap_aux (first : List Patient) (holeIndex topIndex : Nat) (value : Patient) :
    List Patient :=
  push_heap_loop topIndex value holeIndex first holeIndex

/-- The function `std::push_heap(first, last)`: the last element of the range is the
value to sift up from the hole at index `last - first - 1`. -/
def push_heap (first : List Patient) : List Patient :=
  match first.getLast? with
  | none => first
  | some value => push_heap_aux first (first.length - 1) 0 value

/-- The `while (secondChild < (len - 1) / 2)` loop of `std::__adjust_heap`: the hole
descends to the larger child (the left one when the right one compares below it).
Returns the vector, the hole index and `secondChild` at loop exit.  The first argument
bounds the number of iterations; `secondChild` strictly increases and stays below
`len`, so `len` iterations always suffice. -/
def adjust_heap_loop (len : Nat) :
    Nat → List Patient → Nat → Nat → List Patient × Nat × Nat
  | 0, first, holeIndex, secondChild => (first, holeIndex, secondChild)
  | fuel + 1, first, holeIndex, secondChild =>
    if secondChild < (len - 1) / 2 then
      let secondChild1 := 2 * (secondChild + 1)
      let secondChild2 :=
        if (first.getD secondChild1 default).lt (first.getD (secondChild1 - 1) default)
        then secondChild1 - 1 else secondChild1
      adjust_heap_loop len fuel
        (first.set holeIndex (first.getD secondChild2 default)) secondChild2 secondChild2
    else
      (first, holeIndex, secondChild)

/-- The function `std::__adjust_heap(first, holeIndex, len, value, comp)`: the descent
loop, the special case of a last node with a single child, then `__push_heap` of
`value` from the final hole up to `topIndex = holeIndex`.  (`len >= 1` at every call,
where `(len - 1) / 2` and `(len - 2) / 2` agree with their C++ values.) -/
def adjust_heap (first : List Patient) (holeIndex len : Nat) (value : Patient) :
    List Patient :=
  let topIndex := holeIndex
  let (first1, holeIndex1, secondChild1) := adjust_heap_loop len len first holeIndex holeIndex
  if len % 2 = 0 ∧ secondChild1 = (len - 2) / 2 then
    let secondChild2 := 2 * (secondChild1 + 1)
    push_heap_aux (first1.set holeIndex1 (first1.getD (secondChild2 - 1) default))
      (secondChild2 - 1) topIndex value
  else
    push_heap_aux first1 holeIndex1 topIndex value

/-- The function `std::pop_heap(first, last)`: for a range of more than one element,
`__pop_heap(first, last - 1, last - 1)` saves the last element as `value`, moves the
first element to the last position and re-heapifies the first `len - 1` positions. -/
def pop_heap (first : List Patient) : List Patient :=
  if first.length > 1 then
    let last := first.length - 1
    let value := first.getD last default
    adjust_heap (first.set last (first.getD 0 default)) 0 last value
  else
    first

/-- The call `priority_queue::push(x)`: `c.push_back(x); push_heap(c.begin(), c.end())`. -/
def push (c : List Patient) (x : Patient) : List Patient :=
  push_heap (c ++ [x])

/-- The call `priority_queue::top()`: `c.front()`. -/
def top (c : List Patient) : Option Patient :=
  c.head?

/-- The call `priority_queue::pop()`: `pop_heap(c.begin(), c.end()); c.pop_back()`. -/
def pop (c : List Patient) : List Patient :=
  (pop_heap c).dropLast

/-- The elements that `k` successive `top()` / `pop()` rounds take from the queue, in
the order they are taken (the rounds stop early on an empty queue). -/
def drain : Nat → List Patient → List Patient
  | 0, _ => []
  | k + 1, c =>
    match top c with
    | none => []
    | some p => p :: drain k (pop c)

/-- The heap property the container of a `priority_queue` satisfies: no element compares
above its parent, the parent of index `i > 0` being `(i - 1) / 2`. -/
def IsHeap (c : List Patient) : Prop :=
  ∀ i, i < c.length → 0 < i →
    (c.getD ((i - 1) / 2) default).lt (c.getD i default) = false

instance (c : List Patient) : Decidable (IsHeap c) := by
  unfold IsHeap
  infer_instance

end StlHeap

/-! ## The `Hospital` class -/

/-- The four private members of `class Hospital`. -/
structure Hospital where
  criticalPatients : List Patient
  stablePatients : List Patient
  patientRecords : List Patient
  rooms : List Int
deriving DecidableEq, Repr

/-- What a member function prints. -/
inductive Output where
  /-- Printed: "No rooms available! Please wait." -/
  | noRoomsAvailable
  /-- Printed: "Patient NAME admitted successfully in room N." -/
  | admitted (name : String) (roomNumber : Int)
  /-- Printed: "Patient NAME discharged successfully." -/
  | discharged (name : String)
  /-- Printed: "Patient with ID N not found." -/
  | notFound (id : Int)
  /-- Printed: "No critical patients to manage." -/
  | noCriticalPatients
  /-- Printed: "Treating critical patient: NAME (ID: N)" -/
  | treating (name : String) (id : Int)
deriving DecidableEq, Repr

namespace Hospital

/-- The constructor `Hospital(int totalRooms) : rooms(totalRooms, 0)`, for a room
count that is not negative. -/
def init (totalRooms : Nat) : Hospital :=
  { criticalPatients := [], stablePatients := [], patientRecords := [],
    rooms := List.replicate totalRooms 0 }

/-- The loop of `findAvailableRoom` from index `i` on: the first index whose entry is
`0`, or `-1`. -/
def findAvailableRoomFrom : List Int → Nat → Int
  | [], _ => -1
  | r :: rest, i => if r == 0 then (i : Int) else findAvailableRoomFrom rest (i + 1)

/-- Find an available room (returns -1 if no room is available). -/
def findAvailableRoom (h : Hospital) : Int :=
  findAvailableRoomFrom h.rooms 0

/-- The loop of `findRoomByPatient` from index `i` on: the first index whose entry is
`1`, or `-1`. -/
def findRoomByPatientFrom : List Int → Nat → Int
  | [], _ => -1
  | r :: rest, i => if r == 1 then (i : Int) else findRoomByPatientFrom rest (i + 1)

/-- Find room number by patient (returns -1 if not found); the patient is not looked
at. -/
def findRoomByPatient (h : Hospital) (_patient : Patient) : Int :=
  findRoomByPatientFrom h.rooms 0

/-- Admit a patient. -/
def admitPatient (h : Hospital) (id : Int) (name : String) (age : Int)
    (condition : String) (admissionDate : String) : Output × Hospital :=
  let roomNumber := findAvailableRoom h
  if roomNumber == -1 then
    (Output.noRoomsAvailable, h)
  else
    let newPatient : Patient := ⟨id, name, age, condition, admissionDate⟩
    let h1 := { h with rooms := h.rooms.set roomNumber.toNat 1 }
    let h2 :=
      if condition == "Critical" then
        { h1 with criticalPatients := StlHeap.push h1.criticalPatients newPatient }
      else
        { h1 with stablePatients := h1.stablePatients ++ [newPatient] }
    (Output.admitted name (roomNumber + 1),
      { h2 with patientRecords := h2.patientRecords ++ [newPatient] })

/-- The scan of `dischargePatient` over the record list: the first record whose id is
`id`, together with the list without it (`erase(it)`), or `none`. -/
def findRecord (id : Int) : List Patient → Option (Patient × List Patient)
  | [] => none
  | p :: rest =>
    if p.id == id then some (p, rest)
    else
      match findRecord id rest with
      | none => none
      | some (q, rest1) => some (q, p :: rest1)

/-- Discharge a patient. -/
def dischargePatient (h : Hospital) (id : Int) : Output × Hospital :=
  match findRecord id h.patientRecords with
  | some (p, records) =>
    let roomNumber := findRoomByPatient h p
    let rooms := if roomNumber != -1 then h.rooms.set roomNumber.toNat 0 else h.rooms
    (Output.discharged p.name, { h with rooms := rooms, patientRecords := records })
  | none => (Output.notFound id, h)

/-- Manage critical patients (view and treat). -/
def manageCriticalPatients (h : Hospital) : Output × Hospital :=
  match StlHeap.top h.criticalPatients with
  | none => (Output.noCriticalPatients, h)
  | some patient =>
    let h1 := { h with criticalPatients := StlHeap.pop h.criticalPatients }
    let patient1 := { patient with condition := "Stable" }
    (Output.treating patient.name patient.id,
      { h1 with stablePatients := h1.stablePatients ++ [patient1] })

/-- Number of occupied rooms: entries of the room table that are not `0`. -/
def occupiedRooms (h : Hospital) : Nat :=
  h.rooms.countP (fun r => r != 0)

/-- One call of a public member function that changes the registry; `admitCall` carries
the five arguments of `admitPatient` as a `Patient` value. -/
inductive Op where
  | admitCall (data : Patient)
  | dischargeCall (id : Int)
  | manageCall
deriving DecidableEq, Repr

/-- Perform one call. -/
def step (h : Hospital) : Op → Output × Hospital
  | Op.admitCall d => h.admitPatient d.id d.name d.age d.condition d.admissionDate
  | Op.dischargeCall id => h.dischargePatient id
  | Op.manageCall => h.manageCriticalPatients

/-- Perform a sequence of calls, collecting what is printed. -/
def run (h : Hospital) : List Op → List Output × Hospital
  | [] => ([], h)
  | op :: ops =>
    let (o, h1) := h.step op
    let (os, h2) := run h1 ops
    (o :: os, h2)

/-- The states a registry constructed with `totalRooms` rooms can be in. -/
inductive Reachable (totalRooms : Nat) : Hospital → Prop where
  | init : Reachable totalRooms (Hospital.init totalRooms)
  | step (h : Hospital) (op : Op) : Reachable totalRooms h →
      Reachable totalRooms (h.step op).2

/-- The bookkeeping invariant of a registry built with `totalRooms` rooms: the table
keeps its size, holds only `0` and `1`, and has as many `1` entries as there are
records. -/
structure Inv (totalRooms : Nat) (h : Hospital) : Prop where
  size : h.rooms.length = totalRooms
  flags : ∀ r ∈ h.rooms, r = 0 ∨ r = 1
  count : h.rooms.count 1 = h.patientRecords.length

/-- What `displayPatientRecords` prints: the "No patient records available." line, or
the header followed by one row per record, in the order of the record list. -/
inductive Listing where
  | noRecords
  | table (rows : List Patient)
deriving DecidableEq, Repr

/-- Display all patient records (`displayPatientRecords`); the state is not changed. -/
def displayPatientRecords (h : Hospital) : Listing :=
  if h.patientRecords.isEmpty then Listing.noRecords
  else Listing.table h.patientRecords

/-- The records of the successful admissions among the calls `ops` performed from `h`,
in the order of the calls: the data of every `admitPatient` call that printed
"admitted successfully". -/
def admittedRecords (h : Hospital) : List Op → List Patient
  | [] => []
  | op :: ops =>
    match op, (h.step op).1 with
    | Op.admitCall d, Output.admitted _ _ => d :: admittedRecords (h.step op).2 ops
    | _, _ => admittedRecords (h.step op).2 ops

/-- The number of successful discharges among the calls `ops` performed from `h`: the
`dischargePatient` calls that printed "discharged successfully". -/
def dischargeCount (h : Hospital) : List Op → Nat
  | [] => 0
  | op :: ops =>
    match op, (h.step op).1 with
    | Op.dischargeCall _, Output.discharged _ => dischargeCount (h.step op).2 ops + 1
    | _, _ => dischargeCount (h.step op).2 ops

/-- The line printed for a treated patient. -/
def treatingLine (p : Patient) : Output :=
  Output.treating p.name p.id

end Hospital

/-- A date written `DD-MM-YYYY`, read as the number `YYYYMMDD`, so that the order of the
numbers is the order of the dates; this follows the prompt "Enter admission date
(DD-MM-YYYY)" of `main`, the program itself never reads a date.  Text of another shape
reads as `0`. -/
def dateKey (date : String) : Nat :=
  match date.toList with
  | [d1, d2, _, m1, m2, _, y1, y2, y3, y4] =>
    let digit := fun (c : Char) => c.toNat - 48
    (digit y1 * 1000 + digit y2 * 100 + digit y3 * 10 + digit y4) * 10000
      + (digit m1 * 10 + digit m2) * 100 + (digit d1 * 10 + digit d2)
  | _ => 0

/-- The rows are in non-decreasing order of admission date. -/
def SortedByDate (rows : List Patient) : Prop :=
  List.Pairwise (fun a b => dateKey a.admissionDate ≤ dateKey b.admissionDate) rows

instance (rows : List Patient) : Decidable (SortedByDate rows) := by
  unfold SortedByDate
  infer_instance

/-! ## Admission -/

theorem Hospital.findAvailableRoomFrom_full (rooms : List Int) (i : Nat)
    (hfull : ∀ r ∈ rooms, r ≠ 0) : Hospital.findAvailableRoomFrom rooms i = -1 := by
  induction rooms generalizing i with
  | nil => rfl
  | cons r rest ih =>
    have hr : r ≠ 0 := hfull r (List.mem_cons_self _ _)
    have hrest : ∀ x ∈ rest, x ≠ 0 := fun x hx => hfull x (List.mem_cons_of_mem _ hx)
    simp [Hospital.findAvailableRoomFrom, hr, ih (i + 1) hrest]

/-- C1: in a registry with no free room (every entry of the room table non-zero, the
empty table included) `admitPatient` reports "no rooms available" and returns the
state it was given: rooms, records and both queues are unchanged. -/
theorem admitPatient_full_rejected (h : Hospital) (id : Int) (name : String) (age : Int)
    (condition admissionDate : String) (hfull : ∀ r ∈ h.rooms, r ≠ 0) :
    h.admitPatient id name age condition admissionDate = (Output.noRoomsAvailable, h) := by
  have hnone : h.findAvailableRoom = -1 :=
    Hospital.findAvailableRoomFrom_full h.rooms 0 hfull
  simp [Hospital.admitPatient, hnone]

/-- Witness for C1: a two-room registry with both rooms occupied. -/
theorem admitPatient_full_rejected_witness :
    (∀ r ∈ (Hospital.mk [] [] [] [1, 1]).rooms, r ≠ 0) ∧
    (Hospital.mk [] [] [] [1, 1]).admitPatient 3 "C" 50 "Stable" "03-01-2024"
      = (Output.noRoomsAvailable, Hospital.mk [] [] [] [1, 1]) :=
  ⟨by decide, admitPatient_full_rejected _ 3 "C" 50 "Stable" "03-01-2024" (by decide)⟩

theorem Hospital.findAvailableRoomFrom_spec (rooms : List Int) (k : Nat)
    (hmem : (0 : Int) ∈ rooms) :
    ∃ i, i < rooms.length ∧ Hospital.findAvailableRoomFrom rooms k = ((k + i : Nat) : Int) ∧
      rooms[i]? = some 0 ∧ ∀ j, j < i → rooms[j]? ≠ some 0 := by
  induction rooms generalizing k with
  | nil => simp at hmem
  | cons r rest ih =>
    by_cases hr : r = 0
    · refine ⟨0, by simp, ?_, by simp [hr], ?_⟩
      · simp [Hospital.findAvailableRoomFrom, hr]
      · intro j hj; omega
    · have hmem1 : (0 : Int) ∈ rest := by
        rcases List.mem_cons.1 hmem with h0 | h0
        · exact absurd h0.symm hr
        · exact h0
      obtain ⟨i, hi, hfind, hget, hmin⟩ := ih (k + 1) hmem1
      refine ⟨i + 1, by simp [hi], ?_, by simpa using hget, ?_⟩
      · simp only [Hospital.findAvailableRoomFrom, beq_iff_eq, hr, if_false, hfind]
        congr 1; omega
      · intro j hj
        cases j with
        | zero => simpa using hr
        | succ j => simpa using hmin j (by omega)

/-- C2: with at least one free room `admitPatient` succeeds; the room it takes is the
free room of lowest index `i` (every room before it is occupied), the reported room
number is `i + 1`, entry `i` of the room table becomes `1`, every other entry and the
size of the table are unchanged, and the number of occupied rooms grows by exactly
one. -/
theorem admitPatient_takes_first_free (h : Hospital) (id : Int) (name : String) (age : Int)
    (condition admissionDate : String) (hfree : (0 : Int) ∈ h.rooms) :
    ∃ i, i < h.rooms.length ∧ h.rooms[i]? = some 0 ∧
      (∀ j, j < i → ∃ r, h.rooms[j]? = some r ∧ r ≠ 0) ∧
      (h.admitPatient id name age condition admissionDate).1
        = Output.admitted name ((i : Int) + 1) ∧
      (h.admitPatient id name age condition admissionDate).2.rooms = h.rooms.set i 1 ∧
      (h.admitPatient id name age condition admissionDate).2.rooms[i]? = some 1 ∧
      (∀ j, j ≠ i →
        (h.admitPatient id name age condition admissionDate).2.rooms[j]? = h.rooms[j]?) ∧
      (h.admitPatient id name age condition admissionDate).2.rooms.length = h.rooms.length ∧
      (h.admitPatient id name age condition admissionDate).2.occupiedRooms
        = h.occupiedRooms + 1 := by
  obtain ⟨i, hi, hfind, hget, hmin⟩ := Hospital.findAvailableRoomFrom_spec h.rooms 0 hfree
  have hroom : h.findAvailableRoom = (i : Int) := by
    simpa [Hospital.findAvailableRoom] using hfind
  have hne : ¬ ((i : Int) = -1) := by omega
  have hrooms : (h.admitPatient id name age condition admissionDate).2.rooms
      = h.rooms.set i 1 := by
    simp only [Hospital.admitPatient, hroom, beq_iff_eq, hne, if_false]
    split <;> simp
  have hgeti : h.rooms[i] = 0 := by
    have := List.getElem?_eq_getElem hi
    rw [this] at hget
    exact Option.some.inj hget
  refine ⟨i, hi, hget, ?_, ?_, hrooms, ?_, ?_, ?_, ?_⟩
  · intro j hj
    have hjlen : j < h.rooms.length := by omega
    refine ⟨h.rooms[j], List.getElem?_eq_getElem hjlen, ?_⟩
    intro h0
    exact hmin j hj (by rw [List.getElem?_eq_getElem hjlen, h0])
  · simp [Hospital.admitPatient, hroom, hne]
  · rw [hrooms]; simp [hi]
  · intro j hj
    rw [hrooms]; exact List.getElem?_set_ne (Ne.symm hj)
  · rw [hrooms]; simp
  · simp only [Hospital.occupiedRooms, hrooms]
    rw [List.countP_set _ _ _ _ hi]
    simp [hgeti]

/-- Witness for C2: room 1 occupied, room 2 free. -/
theorem admitPatient_takes_first_free_witness :
    (0 : Int) ∈ (Hospital.mk [] [] [] [1, 0]).rooms ∧
    ∃ i, i < (Hospital.mk [] [] [] [1, 0]).rooms.length ∧
      (Hospital.mk [] [] [] [1, 0]).rooms[i]? = some 0 ∧
      (∀ j, j < i → ∃ r, (Hospital.mk [] [] [] [1, 0]).rooms[j]? = some r ∧ r ≠ 0) ∧
      ((Hospital.mk [] [] [] [1, 0]).admitPatient 2 "B" 40 "Stable" "02-01-2024").1
        = Output.admitted "B" ((i : Int) + 1) ∧
      ((Hospital.mk [] [] [] [1, 0]).admitPatient 2 "B" 40 "Stable" "02-01-2024").2.rooms
        = (Hospital.mk [] [] [] [1, 0]).rooms.set i 1 ∧
      ((Hospital.mk [] [] [] [1, 0]).admitPatient 2 "B" 40 "Stable" "02-01-2024").2.rooms[i]?
        = some 1 ∧
      (∀ j, j ≠ i →
        ((Hospital.mk [] [] [] [1, 0]).admitPatient 2 "B" 40 "Stable" "02-01-2024").2.rooms[j]?
          = (Hospital.mk [] [] [] [1, 0]).rooms[j]?) ∧
      ((Hospital.mk [] [] [] [1, 0]).admitPatient 2 "B" 40 "Stable"
        "02-01-2024").2.rooms.length = (Hospital.mk [] [] [] [1, 0]).rooms.length ∧
      ((Hospital.mk [] [] [] [1, 0]).admitPatient 2 "B" 40 "Stable"
        "02-01-2024").2.occupiedRooms = (Hospital.mk [] [] [] [1, 0]).occupiedRooms + 1 :=
  ⟨by decide, admitPatient_takes_first_free _ 2 "B" 40 "Stable" "02-01-2024" (by decide)⟩

/-! ## The heap routines permute the container -/

namespace StlHeap

/-- Moving the element at `j` into the hole `i` and making `j` the new hole does not
change the contents of the vector once the hole is filled. -/
theorem set_hole_perm (l : List Patient) (i j : Nat) (d v : Patient)
    (hi : i < l.length) (hj : j < l.length) :
    ((l.set i (l.getD j d)).set j v).Perm (l.set i v) := by
  rw [List.getD_eq_getElem l d hj]
  by_cases hij : i = j
  · subst hij
    rw [List.set_set]
  · rw [List.perm_iff_count]
    intro a
    have hj1 : j < (l.set i l[j]).length := by simpa using hj
    rw [List.count_set _ _ _ _ hj1, List.count_set _ _ _ _ hi, List.count_set _ _ _ _ hi]
    have hget : (l.set i l[j])[j] = l[j] := by
      simp [List.getElem_set, hij]
    rw [hget]
    have hbi := List.boole_getElem_le_count a l i hi
    have hbj := List.boole_getElem_le_count a l j hj
    have hne : ¬ ((i : Nat) = j) := hij
    by_cases h1 : l[i] = a <;> by_cases h2 : l[j] = a <;> by_cases h3 : v = a <;>
      simp [h1, h2, h3] at hbi hbj ⊢

theorem push_heap_loop_length (topIndex : Nat) (value : Patient) (fuel : Nat)
    (first : List Patient) (holeIndex : Nat) :
    (push_heap_loop topIndex value fuel first holeIndex).length = first.length := by
  induction fuel generalizing first holeIndex with
  | zero => simp [push_heap_loop]
  | succ fuel ih =>
    simp only [push_heap_loop]
    split
    · rw [ih]; simp
    · simp

theorem push_heap_loop_perm (topIndex : Nat) (value : Patient) (fuel : Nat)
    (first : List Patient) (holeIndex : Nat) (hlt : holeIndex < first.length) :
    (push_heap_loop topIndex value fuel first holeIndex).Perm (first.set holeIndex value) := by
  induction fuel generalizing first holeIndex with
  | zero => simp [push_heap_loop]
  | succ fuel ih =>
    simp only [push_heap_loop]
    split
    · have hparent : (holeIndex - 1) / 2 < first.length := by omega
      refine (ih _ _ (by simpa using hparent)).trans ?_
      exact set_hole_perm first holeIndex _ value value hlt hparent
    · exact List.Perm.refl _

/-- Positions above the hole are not touched by `__push_heap`. -/
theorem push_heap_loop_getElem?_gt (topIndex : Nat) (value : Patient) (fuel : Nat)
    (first : List Patient) (holeIndex k : Nat) (hk : holeIndex < k) :
    (push_heap_loop topIndex value fuel first holeIndex)[k]? = first[k]? := by
  induction fuel generalizing first holeIndex with
  | zero =>
    simp only [push_heap_loop]
    exact List.getElem?_set_ne (by omega)
  | succ fuel ih =>
    simp only [push_heap_loop]
    split
    · rw [ih _ _ (by omega)]
      exact List.getElem?_set_ne (by omega)
    · exact List.getElem?_set_ne (by omega)

/-- The iteration bound of `push_heap_loop` is never what ends the loop: any two bounds
of at least `holeIndex` give the same result. -/
theorem push_heap_loop_fuel (topIndex : Nat) (value : Patient) (fuel1 fuel2 : Nat)
    (first : List Patient) (holeIndex : Nat) (h1 : holeIndex ≤ fuel1)
    (h2 : holeIndex ≤ fuel2) :
    push_heap_loop topIndex value fuel1 first holeIndex
      = push_heap_loop topIndex value fuel2 first holeIndex := by
  induction fuel1 generalizing fuel2 first holeIndex with
  | zero =>
    have h0 : holeIndex = 0 := by omega
    subst h0
    cases fuel2 with
    | zero => rfl
    | succ fuel2 => simp [push_heap_loop]
  | succ fuel1 ih =>
    cases fuel2 with
    | zero =>
      have h0 : holeIndex = 0 := by omega
      subst h0
      simp [push_heap_loop]
    | succ fuel2 =>
      simp only [push_heap_loop]
      split
      · rename_i hc
        have hpos : 0 < holeIndex := by
          simp only [gt_iff_lt, Bool.and_eq_true, decide_eq_true_eq] at hc
          omega
        exact ih fuel2 _ _ (by omega) (by omega)
      · rfl

theorem push_perm (c : List Patient) (x : Patient) : (push c x).Perm (c ++ [x]) := by
  have hset : (c ++ [x]).set c.length x = c ++ [x] := by
    rw [List.set_append_right _ _ (Nat.le_refl _)]
    simp
  simp only [push, push_heap, List.getLast?_concat, push_heap_aux]
  have := push_heap_loop_perm 0 x ((c ++ [x]).length - 1) (c ++ [x]) ((c ++ [x]).length - 1)
    (by simp)
  simpa [hset] using this

end StlHeap

/-- C3: with a free room, `admitPatient` appends the new record, carrying the five
supplied fields, at the end of the record list; for the condition `"Critical"` the
record is pushed on the critical queue (whose contents become the old contents plus the
record) and the stable queue is unchanged, and for every other condition the record is
appended at the back of the stable queue and the critical queue is unchanged. -/
theorem admitPatient_records_and_queues (h : Hospital) (id : Int) (name : String)
    (age : Int) (condition admissionDate : String) (hfree : (0 : Int) ∈ h.rooms) :
    (h.admitPatient id name age condition admissionDate).2.patientRecords
      = h.patientRecords ++ [⟨id, name, age, condition, admissionDate⟩] ∧
    (condition = "Critical" →
      (h.admitPatient id name age condition admissionDate).2.criticalPatients
        = StlHeap.push h.criticalPatients ⟨id, name, age, condition, admissionDate⟩ ∧
      ((h.admitPatient id name age condition admissionDate).2.criticalPatients).Perm
        (h.criticalPatients ++ [⟨id, name, age, condition, admissionDate⟩]) ∧
      (h.admitPatient id name age condition admissionDate).2.stablePatients
        = h.stablePatients) ∧
    (condition ≠ "Critical" →
      (h.admitPatient id name age condition admissionDate).2.stablePatients
        = h.stablePatients ++ [⟨id, name, age, condition, admissionDate⟩] ∧
      (h.admitPatient id name age condition admissionDate).2.criticalPatients
        = h.criticalPatients) := by
  obtain ⟨i, hi, hfind, -, -⟩ := Hospital.findAvailableRoomFrom_spec h.rooms 0 hfree
  have hroom : h.findAvailableRoom = (i : Int) := by
    simpa [Hospital.findAvailableRoom] using hfind
  have hne : ¬ ((i : Int) = -1) := by omega
  refine ⟨?_, ?_, ?_⟩
  · simp only [Hospital.admitPatient, hroom, beq_iff_eq, hne, if_false]
    split <;> simp
  · intro hc
    subst hc
    simp only [Hospital.admitPatient, hroom, beq_iff_eq, hne, if_false, if_true]
    exact ⟨trivial, StlHeap.push_perm _ _, trivial⟩
  · intro hc
    simp [Hospital.admitPatient, hroom, hne, hc]

/-- Witness for C3: a critical patient admitted to a fresh two-room registry. -/
theorem admitPatient_records_and_queues_witness :
    (0 : Int) ∈ (Hospital.init 2).rooms ∧
    ((Hospital.init 2).admitPatient 1 "A" 30 "Critical" "01-01-2024").2.patientRecords
      = (Hospital.init 2).patientRecords ++ [⟨1, "A", 30, "Critical", "01-01-2024"⟩] :=
  ⟨by decide,
    (admitPatient_records_and_queues _ 1 "A" 30 "Critical" "01-01-2024" (by decide)).1⟩

/-! ## Admissions into a fresh registry -/

theorem Hospital.findAvailableRoomFrom_ones (a : Nat) (rest : List Int) (k : Nat) :
    Hospital.findAvailableRoomFrom (List.replicate a 1 ++ 0 :: rest) k = ((k + a : Nat) : Int) := by
  induction a generalizing k with
  | zero => simp [Hospital.findAvailableRoomFrom]
  | succ a ih =>
    have hstep : Hospital.findAvailableRoomFrom (List.replicate (a + 1) 1 ++ 0 :: rest) k
        = Hospital.findAvailableRoomFrom (List.replicate a 1 ++ 0 :: rest) (k + 1) := by
      simp [List.replicate_succ, Hospital.findAvailableRoomFrom]
    rw [hstep, ih (k + 1)]
    congr 1
    omega

theorem Hospital.set_ones (a : Nat) (rest : List Int) :
    (List.replicate a 1 ++ (0 : Int) :: rest).set a 1 = List.replicate (a + 1) 1 ++ rest := by
  induction a with
  | zero => simp
  | succ a ih =>
    simp only [List.replicate_succ, List.cons_append, List.set_cons_succ, ih]

/-- Admission into a table whose first `a` rooms are occupied and whose next `b + 1` are
free. -/
theorem Hospital.admitPatient_ones (h : Hospital) (d : Patient) (a b : Nat)
    (hrooms : h.rooms = List.replicate a 1 ++ List.replicate (b + 1) 0) :
    (h.step (Hospital.Op.admitCall d)).1 = Output.admitted d.name ((a : Int) + 1) ∧
    (h.step (Hospital.Op.admitCall d)).2.rooms
      = List.replicate (a + 1) 1 ++ List.replicate b 0 := by
  have hfind : h.findAvailableRoom = (a : Int) := by
    simp [Hospital.findAvailableRoom, hrooms, List.replicate_succ,
      Hospital.findAvailableRoomFrom_ones]
  have hne : ¬ ((a : Int) = -1) := by omega
  have hset : h.rooms.set a 1 = List.replicate (a + 1) 1 ++ List.replicate b 0 := by
    rw [hrooms, List.replicate_succ (n := b), Hospital.set_ones]
  constructor
  · simp [Hospital.step, Hospital.admitPatient, hfind, hne]
  · simp only [Hospital.step, Hospital.admitPatient, hfind, beq_iff_eq, hne, if_false,
      Int.toNat_ofNat, hset]
    split <;> rfl

theorem Hospital.run_admissions (ps : List Patient) (h : Hospital) (a b : Nat)
    (hrooms : h.rooms = List.replicate a 1 ++ List.replicate b 0) (hlen : ps.length ≤ b) :
    (h.run (ps.map Hospital.Op.admitCall)).2.rooms
      = List.replicate (a + ps.length) 1 ++ List.replicate (b - ps.length) 0 ∧
    ∀ i (hi : i < ps.length),
      (h.run (ps.map Hospital.Op.admitCall)).1[i]?
        = some (Output.admitted ps[i].name ((a : Int) + (i : Int) + 1)) := by
  induction ps generalizing h a b with
  | nil => exact ⟨by simpa [Hospital.run] using hrooms, fun i hi => by simp at hi⟩
  | cons p ps ih =>
    obtain ⟨b1, rfl⟩ : ∃ b1, b = b1 + 1 := ⟨b - 1, by simp at hlen; omega⟩
    obtain ⟨hout, hnext⟩ := Hospital.admitPatient_ones h p a b1 hrooms
    obtain ⟨ihrooms, ihout⟩ := ih (h.step (Hospital.Op.admitCall p)).2 (a + 1) b1 hnext
      (by simpa using hlen)
    constructor
    · simp only [List.map_cons, Hospital.run, ihrooms, List.length_cons]
      congr 2 <;> omega
    · intro i hi
      cases i with
      | zero => simp [Hospital.run, hout]
      | succ i =>
        have := ihout i (by simpa using hi)
        simp only [List.map_cons, Hospital.run, List.getElem?_cons_succ, this,
          List.getElem_cons_succ]
        push_cast
        congr 2
        omega

/-- C4: for every room count `n` and every list of at most `n` admissions applied to a
fresh registry of `n` rooms, each admission succeeds, the `i`-th one (counting from 1)
is reported in room number `i`, and after the first `i` admissions exactly `i` rooms
are occupied. -/
theorem admissions_fill_rooms_in_order (n : Nat) (ps : List Patient) (hk : ps.length ≤ n) :
    (∀ i (hi : i < ps.length),
      ((Hospital.init n).run (ps.map Hospital.Op.admitCall)).1[i]?
        = some (Output.admitted ps[i].name ((i : Int) + 1))) ∧
    (∀ i, i ≤ ps.length →
      ((Hospital.init n).run ((ps.take i).map Hospital.Op.admitCall)).2.occupiedRooms = i) := by
  have hinit : (Hospital.init n).rooms = List.replicate 0 1 ++ List.replicate n 0 := by
    simp [Hospital.init]
  constructor
  · intro i hi
    have := (Hospital.run_admissions ps (Hospital.init n) 0 n hinit hk).2 i hi
    simpa using this
  · intro i hi
    have hlen : (ps.take i).length = i := by simp [hi]
    have := (Hospital.run_admissions (ps.take i) (Hospital.init n) 0 n hinit
      (by rw [hlen]; omega)).1
    rw [hlen] at this
    rw [Hospital.occupiedRooms, this]
    simp [List.countP_replicate]

/-- Witness for C4: two admissions into a fresh registry of three rooms. -/
theorem admissions_fill_rooms_in_order_witness :
    ([⟨1, "A", 30, "Critical", "01-01-2024"⟩, ⟨2, "B", 40, "Stable", "02-01-2024"⟩] :
        List Patient).length ≤ 3 ∧
    ((Hospital.init 3).run
      (([⟨1, "A", 30, "Critical", "01-01-2024"⟩, ⟨2, "B", 40, "Stable", "02-01-2024"⟩] :
        List Patient).take 2 |>.map Hospital.Op.admitCall)).2.occupiedRooms = 2 :=
  ⟨by decide,
    (admissions_fill_rooms_in_order 3
      [⟨1, "A", 30, "Critical", "01-01-2024"⟩, ⟨2, "B", 40, "Stable", "02-01-2024"⟩]
      (by decide)).2 2 (by decide)⟩

/-! ## Discharge -/

theorem Hospital.findRecord_none (id : Int) (l : List Patient)
    (habsent : ∀ p ∈ l, p.id ≠ id) : Hospital.findRecord id l = none := by
  induction l with
  | nil => rfl
  | cons p rest ih =>
    have hp : p.id ≠ id := habsent p (List.mem_cons_self _ _)
    have hrest := ih (fun q hq => habsent q (List.mem_cons_of_mem _ hq))
    simp [Hospital.findRecord, hp, hrest]

theorem Hospital.findRecord_some (id : Int) (l : List Patient)
    (hpresent : ∃ p ∈ l, p.id = id) :
    ∃ p l1 l2, l = l1 ++ p :: l2 ∧ p.id = id ∧ (∀ q ∈ l1, q.id ≠ id) ∧
      Hospital.findRecord id l = some (p, l1 ++ l2) := by
  induction l with
  | nil => simp at hpresent
  | cons p rest ih =>
    by_cases hp : p.id = id
    · exact ⟨p, [], rest, rfl, hp, by simp, by simp [Hospital.findRecord, hp]⟩
    · have hrest : ∃ q ∈ rest, q.id = id := by
        obtain ⟨q, hq, hqid⟩ := hpresent
        rcases List.mem_cons.1 hq with h0 | h0
        · exact absurd (h0 ▸ hqid) hp
        · exact ⟨q, h0, hqid⟩
      obtain ⟨q, l1, l2, hl, hqid, hmin, hfind⟩ := ih hrest
      refine ⟨q, p :: l1, l2, by simp [hl], hqid, ?_, ?_⟩
      · intro x hx
        rcases List.mem_cons.1 hx with h0 | h0
        · exact h0 ▸ hp
        · exact hmin x h0
      · simp [Hospital.findRecord, hp, hfind]

/-- C5: for an id carried by no record, `dischargePatient` reports "not found" and
returns the state it was given: rooms, records and both queues are unchanged. -/
theorem dischargePatient_absent (h : Hospital) (id : Int)
    (habsent : ∀ p ∈ h.patientRecords, p.id ≠ id) :
    h.dischargePatient id = (Output.notFound id, h) := by
  simp [Hospital.dischargePatient, Hospital.findRecord_none id h.patientRecords habsent]

/-- Witness for C5: discharging id 7 from a registry that holds only id 1. -/
theorem dischargePatient_absent_witness :
    (∀ p ∈ (Hospital.mk [] [⟨1, "A", 30, "Stable", "01-01-2024"⟩]
        [⟨1, "A", 30, "Stable", "01-01-2024"⟩] [1, 0]).patientRecords, p.id ≠ 7) ∧
    (Hospital.mk [] [⟨1, "A", 30, "Stable", "01-01-2024"⟩]
        [⟨1, "A", 30, "Stable", "01-01-2024"⟩] [1, 0]).dischargePatient 7
      = (Output.notFound 7, Hospital.mk [] [⟨1, "A", 30, "Stable", "01-01-2024"⟩]
        [⟨1, "A", 30, "Stable", "01-01-2024"⟩] [1, 0]) :=
  ⟨by decide, dischargePatient_absent _ 7 (by decide)⟩

theorem Hospital.findRoomByPatientFrom_none (rooms : List Int) (k : Nat)
    (hnone : (1 : Int) ∉ rooms) : Hospital.findRoomByPatientFrom rooms k = -1 := by
  induction rooms generalizing k with
  | nil => rfl
  | cons r rest ih =>
    have hr : r ≠ 1 := fun h1 => hnone (h1 ▸ List.mem_cons_self _ _)
    have hrest : (1 : Int) ∉ rest := fun h1 => hnone (List.mem_cons_of_mem _ h1)
    simp [Hospital.findRoomByPatientFrom, hr, ih (k + 1) hrest]

theorem Hospital.findRoomByPatientFrom_spec (rooms : List Int) (k : Nat)
    (hmem : (1 : Int) ∈ rooms) :
    ∃ i, i < rooms.length ∧ Hospital.findRoomByPatientFrom rooms k = ((k + i : Nat) : Int) ∧
      rooms[i]? = some 1 ∧ ∀ j, j < i → rooms[j]? ≠ some 1 := by
  induction rooms generalizing k with
  | nil => simp at hmem
  | cons r rest ih =>
    by_cases hr : r = 1
    · refine ⟨0, by simp, ?_, by simp [hr], ?_⟩
      · simp [Hospital.findRoomByPatientFrom, hr]
      · intro j hj; omega
    · have hmem1 : (1 : Int) ∈ rest := by
        rcases List.mem_cons.1 hmem with h0 | h0
        · exact absurd h0.symm hr
        · exact h0
      obtain ⟨i, hi, hfind, hget, hmin⟩ := ih (k + 1) hmem1
      refine ⟨i + 1, by simp [hi], ?_, by simpa using hget, ?_⟩
      · simp only [Hospital.findRoomByPatientFrom, beq_iff_eq, hr, if_false, hfind]
        congr 1; omega
      · intro j hj
        cases j with
        | zero => simpa using hr
        | succ j => simpa using hmin j (by omega)

/-- The state after a successful scan of `dischargePatient`, when some room holds `1`:
the first such room is set to `0` and the found record is erased. -/
theorem Hospital.dischargePatient_found (h : Hospital) (id : Int) (p : Patient)
    (records : List Patient) (hfind : Hospital.findRecord id h.patientRecords = some (p, records))
    (hocc : (1 : Int) ∈ h.rooms) :
    ∃ i, i < h.rooms.length ∧ h.rooms[i]? = some 1 ∧ (∀ j, j < i → h.rooms[j]? ≠ some 1) ∧
      h.dischargePatient id
        = (Output.discharged p.name,
            { h with rooms := h.rooms.set i 0, patientRecords := records }) := by
  obtain ⟨i, hi, hroom, hget, hmin⟩ := Hospital.findRoomByPatientFrom_spec h.rooms 0 hocc
  have hroom1 : h.findRoomByPatient p = (i : Int) := by
    simpa [Hospital.findRoomByPatient] using hroom
  have hne : ¬ ((i : Int) = -1) := by omega
  exact ⟨i, hi, hget, hmin, by simp [Hospital.dischargePatient, hfind, hroom1, hne]⟩

/-- The state after a successful admission: the first free room is set to `1` and the
record is appended. -/
theorem Hospital.admitPatient_free (h : Hospital) (id : Int) (name : String) (age : Int)
    (condition admissionDate : String) (hfree : (0 : Int) ∈ h.rooms) :
    ∃ i, i < h.rooms.length ∧ h.rooms[i]? = some 0 ∧
      (h.admitPatient id name age condition admissionDate).2.rooms = h.rooms.set i 1 ∧
      (h.admitPatient id name age condition admissionDate).2.patientRecords
        = h.patientRecords ++ [⟨id, name, age, condition, admissionDate⟩] := by
  obtain ⟨i, hi, hfind, hget, -⟩ := Hospital.findAvailableRoomFrom_spec h.rooms 0 hfree
  have hroom : h.findAvailableRoom = (i : Int) := by
    simpa [Hospital.findAvailableRoom] using hfind
  have hne : ¬ ((i : Int) = -1) := by omega
  refine ⟨i, hi, hget, ?_, ?_⟩ <;>
  · simp only [Hospital.admitPatient, hroom, beq_iff_eq, hne, if_false]
    split <;> simp

theorem Hospital.getElem_of_getElem? (rooms : List Int) (i : Nat) (v : Int)
    (hi : i < rooms.length) (hget : rooms[i]? = some v) : rooms[i] = v := by
  rw [List.getElem?_eq_getElem hi] at hget
  exact Option.some.inj hget

theorem Hospital.Inv.admitPatient (n : Nat) (h : Hospital) (id : Int) (name : String)
    (age : Int) (condition admissionDate : String) (hinv : Hospital.Inv n h) :
    Hospital.Inv n (h.admitPatient id name age condition admissionDate).2 := by
  by_cases hfree : (0 : Int) ∈ h.rooms
  · obtain ⟨i, hi, hget, hrooms, hrecords⟩ :=
      Hospital.admitPatient_free h id name age condition admissionDate hfree
    have hgeti := Hospital.getElem_of_getElem? h.rooms i 0 hi hget
    refine ⟨?_, ?_, ?_⟩
    · rw [hrooms]; simpa using hinv.size
    · intro r hr
      rw [hrooms] at hr
      rcases List.mem_or_eq_of_mem_set hr with h0 | h0
      · exact hinv.flags r h0
      · exact Or.inr h0
    · rw [hrooms, hrecords, List.count_set _ _ _ _ hi, hgeti, hinv.count]
      simp
  · have hfull : h.findAvailableRoom = -1 :=
      Hospital.findAvailableRoomFrom_full h.rooms 0 (fun r hr h0 => hfree (h0 ▸ hr))
    have hsame : (h.admitPatient id name age condition admissionDate).2 = h := by
      simp [Hospital.admitPatient, hfull]
    rw [hsame]; exact hinv

theorem Hospital.Inv.dischargePatient (n : Nat) (h : Hospital) (id : Int)
    (hinv : Hospital.Inv n h) : Hospital.Inv n (h.dischargePatient id).2 := by
  by_cases hpresent : ∃ p ∈ h.patientRecords, p.id = id
  · obtain ⟨p, l1, l2, hl, -, -, hfind⟩ := Hospital.findRecord_some id h.patientRecords hpresent
    have hocc : (1 : Int) ∈ h.rooms := by
      rw [← List.count_pos_iff, hinv.count, hl]
      simp
    obtain ⟨i, hi, hget, -, heq⟩ := Hospital.dischargePatient_found h id p _ hfind hocc
    have hgeti := Hospital.getElem_of_getElem? h.rooms i 1 hi hget
    rw [heq]
    refine ⟨?_, ?_, ?_⟩
    · simpa using hinv.size
    · intro r hr
      rcases List.mem_or_eq_of_mem_set hr with h0 | h0
      · exact hinv.flags r h0
      · exact Or.inl h0
    · have hc := hinv.count
      rw [hl] at hc
      simp only [List.length_append, List.length_cons] at hc
      simp only [List.count_set _ _ _ _ hi, hgeti, List.length_append]
      simp
      omega
  · have hnone := Hospital.findRecord_none id h.patientRecords
      (fun p hp hid => hpresent ⟨p, hp, hid⟩)
    have hsame : (h.dischargePatient id).2 = h := by
      simp [Hospital.dischargePatient, hnone]
    rw [hsame]; exact hinv

theorem Hospital.Inv.manageCriticalPatients (n : Nat) (h : Hospital)
    (hinv : Hospital.Inv n h) : Hospital.Inv n h.manageCriticalPatients.2 := by
  unfold Hospital.manageCriticalPatients
  split
  · exact hinv
  · exact ⟨hinv.size, hinv.flags, hinv.count⟩

/-- Every reachable state satisfies the bookkeeping invariant. -/
theorem Hospital.Reachable.inv (n : Nat) (h : Hospital) (hreach : Hospital.Reachable n h) :
    Hospital.Inv n h := by
  induction hreach with
  | init =>
    exact ⟨by simp [Hospital.init], by simp [Hospital.init],
      by simp [Hospital.init, List.count_replicate]⟩
  | step h op _ ih =>
    cases op with
    | admitCall d => exact Hospital.Inv.admitPatient n h _ _ _ _ _ ih
    | dischargeCall id => exact Hospital.Inv.dischargePatient n h id ih
    | manageCall => exact Hospital.Inv.manageCriticalPatients n h ih

/-- C6: in every reachable state and for every id carried by some record,
`dischargePatient` reports success for the first record `p` with that id, removes that
one record and nothing else (records before it, records after it, later records with
the same id, all keep their order), so one record fewer remains, and sets exactly one
occupied room to vacant, so one room fewer is occupied. -/
theorem dischargePatient_present (n : Nat) (h : Hospital) (id : Int)
    (hreach : Hospital.Reachable n h) (hpresent : ∃ p ∈ h.patientRecords, p.id = id) :
    (∃ p l1 l2, h.patientRecords = l1 ++ p :: l2 ∧ p.id = id ∧ (∀ q ∈ l1, q.id ≠ id) ∧
      (h.dischargePatient id).1 = Output.discharged p.name ∧
      (h.dischargePatient id).2.patientRecords = l1 ++ l2) ∧
    (h.dischargePatient id).2.patientRecords.length + 1 = h.patientRecords.length ∧
    (∃ i, i < h.rooms.length ∧ h.rooms[i]? = some 1 ∧
      (h.dischargePatient id).2.rooms = h.rooms.set i 0) ∧
    (h.dischargePatient id).2.occupiedRooms + 1 = h.occupiedRooms := by
  have hinv := Hospital.Reachable.inv n h hreach
  obtain ⟨p, l1, l2, hl, hid, hmin, hfind⟩ :=
    Hospital.findRecord_some id h.patientRecords hpresent
  have hocc : (1 : Int) ∈ h.rooms := by
    rw [← List.count_pos_iff, hinv.count, hl]
    simp
  obtain ⟨i, hi, hget, -, heq⟩ := Hospital.dischargePatient_found h id p _ hfind hocc
  have hgeti := Hospital.getElem_of_getElem? h.rooms i 1 hi hget
  rw [heq]
  refine ⟨⟨p, l1, l2, hl, hid, hmin, rfl, rfl⟩, ?_, ⟨i, hi, hget, rfl⟩, ?_⟩
  · simp only [hl, List.length_append, List.length_cons]
    omega
  · simp only [Hospital.occupiedRooms]
    rw [List.countP_set _ _ _ _ hi, hgeti]
    have hle := List.boole_getElem_le_countP (fun r : Int => r != 0) h.rooms i hi
    rw [hgeti] at hle
    have h1 : ((1 : Int) != 0) = true := by decide
    have h0 : ((0 : Int) != 0) = false := by decide
    simp only [h1, h0, if_true, Bool.false_eq_true, if_false] at hle ⊢
    omega

/-- Witness for C6: discharging the only patient of a two-room registry. -/
theorem dischargePatient_present_witness :
    Hospital.Reachable 2
      ((Hospital.init 2).step
        (Hospital.Op.admitCall ⟨1, "A", 30, "Critical", "01-01-2024"⟩)).2 ∧
    (∃ p ∈ ((Hospital.init 2).step
        (Hospital.Op.admitCall ⟨1, "A", 30, "Critical", "01-01-2024"⟩)).2.patientRecords,
      p.id = 1) ∧
    (((Hospital.init 2).step
        (Hospital.Op.admitCall ⟨1, "A", 30, "Critical", "01-01-2024"⟩)).2.dischargePatient
          1).2.occupiedRooms + 1
      = ((Hospital.init 2).step
        (Hospital.Op.admitCall ⟨1, "A", 30, "Critical", "01-01-2024"⟩)).2.occupiedRooms :=
  ⟨Hospital.Reachable.step _ _ Hospital.Reachable.init, by decide,
    (dischargePatient_present 2 _ 1 (Hospital.Reachable.step _ _ Hospital.Reachable.init)
      (by decide)).2.2.2⟩

/-- C7 (the code at a failing input): in a fresh two-room registry patient 1 is admitted
to room 1 and patient 2 to room 2; discharging patient 2 removes the record of patient 2
but vacates room 1, the room of patient 1, who stays in the record list, while room 2
stays marked occupied. -/
theorem dischargePatient_vacates_other_room :
    (Hospital.init 2).run
      [Hospital.Op.admitCall ⟨1, "A", 30, "Stable", "01-01-2024"⟩,
       Hospital.Op.admitCall ⟨2, "B", 40, "Stable", "02-01-2024"⟩,
       Hospital.Op.dischargeCall 2]
    = ([Output.admitted "A" 1, Output.admitted "B" 2, Output.discharged "B"],
       { criticalPatients := [],
         stablePatients := [⟨1, "A", 30, "Stable", "01-01-2024"⟩,
                            ⟨2, "B", 40, "Stable", "02-01-2024"⟩],
         patientRecords := [⟨1, "A", 30, "Stable", "01-01-2024"⟩],
         rooms := [0, 1] }) := by
  decide

/-! ## The scenario of the specification -/

/-- C8: in a fresh registry of two rooms the sequence admit 1 (Critical), admit 2,
admit 3, discharge 1, admit 3 prints: admitted in room 1, admitted in room 2, no rooms
available, discharged, admitted; both rooms are occupied before the discharge, one room
is occupied after it, and both are occupied again after the last admission. -/
theorem scenario_two_rooms :
    ((Hospital.init 2).run
      [Hospital.Op.admitCall ⟨1, "A", 30, "Critical", "01-01-2024"⟩,
       Hospital.Op.admitCall ⟨2, "B", 40, "Stable", "02-01-2024"⟩,
       Hospital.Op.admitCall ⟨3, "C", 50, "Stable", "03-01-2024"⟩,
       Hospital.Op.dischargeCall 1,
       Hospital.Op.admitCall ⟨3, "C", 50, "Stable", "03-01-2024"⟩]).1
      = [Output.admitted "A" 1, Output.admitted "B" 2, Output.noRoomsAvailable,
         Output.discharged "A", Output.admitted "C" 1] ∧
    ((Hospital.init 2).run
      [Hospital.Op.admitCall ⟨1, "A", 30, "Critical", "01-01-2024"⟩,
       Hospital.Op.admitCall ⟨2, "B", 40, "Stable", "02-01-2024"⟩,
       Hospital.Op.admitCall ⟨3, "C", 50, "Stable", "03-01-2024"⟩]).2.occupiedRooms = 2 ∧
    ((Hospital.init 2).run
      [Hospital.Op.admitCall ⟨1, "A", 30, "Critical", "01-01-2024"⟩,
       Hospital.Op.admitCall ⟨2, "B", 40, "Stable", "02-01-2024"⟩,
       Hospital.Op.admitCall ⟨3, "C", 50, "Stable", "03-01-2024"⟩,
       Hospital.Op.dischargeCall 1]).2.occupiedRooms = 1 ∧
    ((Hospital.init 2).run
      [Hospital.Op.admitCall ⟨1, "A", 30, "Critical", "01-01-2024"⟩,
       Hospital.Op.admitCall ⟨2, "B", 40, "Stable", "02-01-2024"⟩,
       Hospital.Op.admitCall ⟨3, "C", 50, "Stable", "03-01-2024"⟩,
       Hospital.Op.dischargeCall 1,
       Hospital.Op.admitCall ⟨3, "C", 50, "Stable", "03-01-2024"⟩]).2.occupiedRooms = 2 := by
  decide

/-! ## Treatment of critical patients -/

/-- C9: with an empty critical queue `manageCriticalPatients` reports that there is no
critical patient and returns the state it was given: rooms, records and both queues are
unchanged. -/
theorem manageCriticalPatients_empty (h : Hospital) (hempty : h.criticalPatients = []) :
    h.manageCriticalPatients = (Output.noCriticalPatients, h) := by
  simp [Hospital.manageCriticalPatients, StlHeap.top, hempty]

/-- Witness for C9: a registry holding one stable patient. -/
theorem manageCriticalPatients_empty_witness :
    (Hospital.mk [] [⟨2, "B", 40, "Stable", "02-01-2024"⟩]
        [⟨2, "B", 40, "Stable", "02-01-2024"⟩] [1, 0]).criticalPatients = [] ∧
    (Hospital.mk [] [⟨2, "B", 40, "Stable", "02-01-2024"⟩]
        [⟨2, "B", 40, "Stable", "02-01-2024"⟩] [1, 0]).manageCriticalPatients
      = (Output.noCriticalPatients,
          Hospital.mk [] [⟨2, "B", 40, "Stable", "02-01-2024"⟩]
            [⟨2, "B", 40, "Stable", "02-01-2024"⟩] [1, 0]) :=
  ⟨rfl, manageCriticalPatients_empty _ rfl⟩

namespace StlHeap

/-- What the descent loop of `__adjust_heap` guarantees when it starts with
`secondChild = holeIndex` inside the range: the hole stays inside the range, filling
it gives the contents of the vector with the old hole filled, and positions outside the
range are not touched. -/
theorem adjust_heap_loop_spec (len fuel : Nat) (first : List Patient) (holeIndex : Nat)
    (hh : holeIndex < len) (hl : len ≤ first.length) :
    (adjust_heap_loop len fuel first holeIndex holeIndex).2.1 < len ∧
    (adjust_heap_loop len fuel first holeIndex holeIndex).2.2
      = (adjust_heap_loop len fuel first holeIndex holeIndex).2.1 ∧
    (adjust_heap_loop len fuel first holeIndex holeIndex).1.length = first.length ∧
    (∀ v, (((adjust_heap_loop len fuel first holeIndex holeIndex).1).set
        (adjust_heap_loop len fuel first holeIndex holeIndex).2.1 v).Perm
        (first.set holeIndex v)) ∧
    (∀ k, len ≤ k →
      (adjust_heap_loop len fuel first holeIndex holeIndex).1[k]? = first[k]?) := by
  induction fuel generalizing first holeIndex with
  | zero => simp [adjust_heap_loop, hh]
  | succ fuel ih =>
    simp only [adjust_heap_loop]
    split
    · rename_i hguard
      split
      · have hc : 2 * (holeIndex + 1) - 1 < len := by omega
        obtain ⟨h1, h2, h3, h4, h5⟩ := ih
          (first.set holeIndex (first.getD (2 * (holeIndex + 1) - 1) default))
          (2 * (holeIndex + 1) - 1) hc (by simpa using hl)
        refine ⟨h1, h2, by simpa using h3, ?_, ?_⟩
        · intro v
          exact (h4 v).trans (set_hole_perm first holeIndex _ default v (by omega) (by omega))
        · intro k hk
          rw [h5 k hk]
          exact List.getElem?_set_ne (by omega)
      · have hc : 2 * (holeIndex + 1) < len := by omega
        obtain ⟨h1, h2, h3, h4, h5⟩ := ih
          (first.set holeIndex (first.getD (2 * (holeIndex + 1)) default))
          (2 * (holeIndex + 1)) hc (by simpa using hl)
        refine ⟨h1, h2, by simpa using h3, ?_, ?_⟩
        · intro v
          exact (h4 v).trans (set_hole_perm first holeIndex _ default v (by omega) (by omega))
        · intro k hk
          rw [h5 k hk]
          exact List.getElem?_set_ne (by omega)
    · exact ⟨hh, rfl, rfl, fun v => List.Perm.refl _, fun k _ => rfl⟩

/-- The iteration bound of `adjust_heap_loop` is never what ends the loop: with a bound
of at least `len` the loop stops because its condition `secondChild < (len - 1) / 2`
fails. -/
theorem adjust_heap_loop_exit (len fuel : Nat) (first : List Patient)
    (holeIndex secondChild : Nat) (hfuel : len ≤ secondChild + fuel) :
    ¬ (adjust_heap_loop len fuel first holeIndex secondChild).2.2 < (len - 1) / 2 := by
  induction fuel generalizing first holeIndex secondChild with
  | zero =>
    simp only [adjust_heap_loop]
    omega
  | succ fuel ih =>
    simp only [adjust_heap_loop]
    split
    · split
      · exact ih _ _ _ (by omega)
      · exact ih _ _ _ (by omega)
    · assumption

theorem set_getD_self (l : List Patient) (i : Nat) (d : Patient) (hi : i < l.length) :
    l.set i (l.getD i d) = l := by
  apply List.ext_getElem?
  intro k
  by_cases hk : i = k
  · subst hk
    rw [List.getD_eq_getElem _ _ hi, List.getElem?_set_self hi, List.getElem?_eq_getElem hi]
  · simp [List.getElem?_set_ne hk]

/-- The function `__adjust_heap` on a hole inside the range: the result holds the
contents of the vector with `value` in the hole, and positions outside the range are not
touched. -/
theorem adjust_heap_spec (first : List Patient) (holeIndex len : Nat) (value : Patient)
    (hh : holeIndex < len) (hl : len ≤ first.length) :
    (adjust_heap first holeIndex len value).Perm (first.set holeIndex value) ∧
    (∀ k, len ≤ k → (adjust_heap first holeIndex len value)[k]? = first[k]?) := by
  have hspec := adjust_heap_loop_spec len len first holeIndex hh hl
  simp only [adjust_heap, push_heap_aux]
  generalize adjust_heap_loop len len first holeIndex holeIndex = r at hspec ⊢
  obtain ⟨first1, hole1, sc1⟩ := r
  simp only at hspec ⊢
  obtain ⟨h1, h2, h3, h4, h5⟩ := hspec
  subst h2
  by_cases hcase : len % 2 = 0 ∧ sc1 = (len - 2) / 2
  · rw [if_pos hcase]
    have hsc : 2 * (sc1 + 1) - 1 = len - 1 := by omega
    rw [hsc]
    constructor
    · refine (push_heap_loop_perm _ _ _ _ _ (by simp; omega)).trans ?_
      exact (set_hole_perm _ _ _ default value (by omega) (by omega)).trans (h4 value)
    · intro k hk
      rw [push_heap_loop_getElem?_gt _ _ _ _ _ _ (by omega), ← h5 k hk]
      exact List.getElem?_set_ne (by omega)
  · rw [if_neg hcase]
    constructor
    · exact (push_heap_loop_perm _ _ _ _ _ (by omega)).trans (h4 value)
    · intro k hk
      rw [push_heap_loop_getElem?_gt _ _ _ _ _ _ (by omega), ← h5 k hk]

/-- The call `pop()` removes the front element and keeps all the others. -/
theorem pop_perm (p : Patient) (t : List Patient) : (pop (p :: t)).Perm t := by
  cases t with
  | nil => simp [pop, pop_heap]
  | cons q t =>
    have hlen : (p :: q :: t).length > 1 := by simp
    have hlast : (p :: q :: t).length - 1 = t.length + 1 := by simp
    simp only [pop, pop_heap, hlen, if_true, hlast]
    have hget0 : (p :: q :: t).getD 0 default = p := rfl
    rw [hget0]
    obtain ⟨hperm, hkeep⟩ := adjust_heap_spec ((p :: q :: t).set (t.length + 1) p) 0
      (t.length + 1) ((p :: q :: t).getD (t.length + 1) default) (by omega) (by simp)
    generalize hr : adjust_heap ((p :: q :: t).set (t.length + 1) p) 0 (t.length + 1)
      ((p :: q :: t).getD (t.length + 1) default) = r at hperm hkeep
    have hfull : r.Perm (p :: q :: t) := by
      refine hperm.trans ?_
      have hswap := set_hole_perm (p :: q :: t) (t.length + 1) 0 default
        ((p :: q :: t).getD (t.length + 1) default) (by simp) (by simp)
      rw [hget0] at hswap
      refine hswap.trans ?_
      rw [set_getD_self _ _ _ (by simp)]
    have hrlen : r.length = t.length + 2 := by simpa using hfull.length_eq
    have hrlast : r.getLast? = some p := by
      rw [List.getLast?_eq_getElem?, hrlen]
      have := hkeep (t.length + 1) (Nat.le_refl _)
      rw [show t.length + 2 - 1 = t.length + 1 from rfl, this]
      simp [List.getElem?_set]
    have hsplit : r.dropLast ++ [p] = r := List.dropLast_append_getLast? p hrlast
    have hcons : (p :: r.dropLast).Perm (p :: q :: t) := by
      refine List.Perm.trans ?_ hfull
      rw [← hsplit]
      simpa using (List.perm_append_singleton p r.dropLast).symm
    exact hcons.cons_inv

end StlHeap

theorem Patient.lt_irrefl (a : Patient) : a.lt a = false := by
  by_cases h : a.condition = "Critical" <;> simp [Patient.lt, h]

/-- If `a` is not below `b` and `b` is not below `c`, then `a` is not below `c`. -/
theorem Patient.lt_neg_trans (a b c : Patient) (hab : a.lt b = false) (hbc : b.lt c = false) :
    a.lt c = false := by
  by_cases h1 : a.condition = "Critical" <;> by_cases h2 : b.condition = "Critical" <;>
    by_cases h3 : c.condition = "Critical" <;> simp [Patient.lt, h1, h2, h3] at hab hbc ⊢

/-- In a heap no element compares above the front element. -/
theorem StlHeap.IsHeap.front_max (p : Patient) (t : List Patient)
    (hheap : StlHeap.IsHeap (p :: t)) : ∀ q ∈ p :: t, p.lt q = false := by
  have hidx : ∀ i, i < (p :: t).length → p.lt ((p :: t).getD i default) = false := by
    intro i
    induction i using Nat.strong_induction_on with
    | _ i ih =>
      intro hi
      by_cases h0 : i = 0
      · subst h0
        exact Patient.lt_irrefl p
      · have hparent := ih ((i - 1) / 2) (by omega) (by omega)
        exact Patient.lt_neg_trans _ _ _ hparent (hheap i hi (by omega))
  intro q hq
  obtain ⟨i, hi, hget⟩ := List.getElem_of_mem hq
  have := hidx i hi
  rwa [List.getD_eq_getElem _ _ hi, hget] at this

/-- C10: with a non-empty critical queue `manageCriticalPatients` takes the front entry
`p` of the queue, which no entry of a heap-ordered queue compares above; the queue
afterwards holds the old contents minus one occurrence of `p`; `p` is reported as
treated by name and id; and a copy of `p` with condition `"Stable"` and the same id,
name, age and admission date is appended at the back of the stable queue, whose old
entries keep their order.  Records and rooms are not touched. -/
theorem manageCriticalPatients_treats_front (h : Hospital)
    (hne : h.criticalPatients ≠ []) :
    ∃ p, StlHeap.top h.criticalPatients = some p ∧ p ∈ h.criticalPatients ∧
      (StlHeap.IsHeap h.criticalPatients → ∀ q ∈ h.criticalPatients, p.lt q = false) ∧
      (p :: h.manageCriticalPatients.2.criticalPatients).Perm h.criticalPatients ∧
      (h.manageCriticalPatients.2.criticalPatients).Perm (h.criticalPatients.erase p) ∧
      h.manageCriticalPatients.1 = Output.treating p.name p.id ∧
      h.manageCriticalPatients.2.stablePatients
        = h.stablePatients ++ [⟨p.id, p.name, p.age, "Stable", p.admissionDate⟩] ∧
      h.manageCriticalPatients.2.patientRecords = h.patientRecords ∧
      h.manageCriticalPatients.2.rooms = h.rooms := by
  obtain ⟨crit, stable, records, rooms⟩ := h
  cases crit with
  | nil => exact absurd rfl hne
  | cons p t =>
    have hpop : (StlHeap.pop (p :: t)).Perm t := StlHeap.pop_perm p t
    refine ⟨p, rfl, List.mem_cons_self _ _, fun hheap => StlHeap.IsHeap.front_max p t hheap,
      ?_, ?_, rfl, rfl, rfl, rfl⟩
    · exact List.Perm.cons p hpop
    · simpa [Hospital.manageCriticalPatients, StlHeap.top] using hpop

/-- Witness for C10: two critical patients in the queue, one stable patient waiting. -/
theorem manageCriticalPatients_treats_front_witness :
    (Hospital.mk [⟨1, "A", 30, "Critical", "01-01-2024"⟩, ⟨3, "C", 50, "Critical", "03-01-2024"⟩]
        [⟨2, "B", 40, "Stable", "02-01-2024"⟩] [] [1, 1, 1]).criticalPatients ≠ [] ∧
    StlHeap.IsHeap (Hospital.mk
        [⟨1, "A", 30, "Critical", "01-01-2024"⟩, ⟨3, "C", 50, "Critical", "03-01-2024"⟩]
        [⟨2, "B", 40, "Stable", "02-01-2024"⟩] [] [1, 1, 1]).criticalPatients ∧
    ∃ p, StlHeap.top [⟨1, "A", 30, "Critical", "01-01-2024"⟩,
          ⟨3, "C", 50, "Critical", "03-01-2024"⟩] = some p ∧
      (Hospital.mk [⟨1, "A", 30, "Critical", "01-01-2024"⟩, ⟨3, "C", 50, "Critical", "03-01-2024"⟩]
        [⟨2, "B", 40, "Stable", "02-01-2024"⟩] [] [1, 1, 1]).manageCriticalPatients.2.stablePatients
      = [⟨2, "B", 40, "Stable", "02-01-2024"⟩,
          ⟨p.id, p.name, p.age, "Stable", p.admissionDate⟩] :=
  ⟨by decide, by decide,
    (manageCriticalPatients_treats_front
      (Hospital.mk [⟨1, "A", 30, "Critical", "01-01-2024"⟩, ⟨3, "C", 50, "Critical", "03-01-2024"⟩]
        [⟨2, "B", 40, "Stable", "02-01-2024"⟩] [] [1, 1, 1]) (by decide)).elim
      (fun p hp => ⟨p, hp.1, hp.2.2.2.2.2.2.1⟩)⟩

/-! ## The critical queue of a reachable state is a heap -/

theorem Hospital.step_critical (h : Hospital) (op : Hospital.Op)
    (hall : ∀ p ∈ h.criticalPatients, p.condition = "Critical") :
    ∀ p ∈ (h.step op).2.criticalPatients, p.condition = "Critical" := by
  cases op with
  | admitCall d =>
    simp only [Hospital.step, Hospital.admitPatient]
    split
    · exact hall
    · by_cases hc : d.condition = "Critical"
      · simp only [hc, beq_self_eq_true, if_true]
        intro p hp
        have hp1 := (StlHeap.push_perm h.criticalPatients _).mem_iff.1 hp
        rcases List.mem_append.1 hp1 with h0 | h0
        · exact hall p h0
        · simp only [List.mem_singleton] at h0
          rw [h0]
      · simp only [beq_iff_eq, hc, if_false]
        exact hall
  | dischargeCall id =>
    simp only [Hospital.step, Hospital.dischargePatient]
    split
    · exact hall
    · exact hall
  | manageCall =>
    simp only [Hospital.step, Hospital.manageCriticalPatients]
    cases hq : h.criticalPatients with
    | nil => simp [StlHeap.top, hq]
    | cons q t =>
      simp only [StlHeap.top, List.head?_cons]
      intro p hp
      have hp1 := (StlHeap.pop_perm q t).mem_iff.1 hp
      exact hall p (by rw [hq]; exact List.mem_cons_of_mem _ hp1)

/-- Every entry of the critical queue of a reachable state has condition "Critical". -/
theorem Hospital.Reachable.critical (n : Nat) (h : Hospital)
    (hreach : Hospital.Reachable n h) : ∀ p ∈ h.criticalPatients, p.condition = "Critical" := by
  induction hreach with
  | init => simp [Hospital.init]
  | step h op _ ih => exact Hospital.step_critical h op ih

/-- The critical queue of a reachable state satisfies the heap property. -/
theorem Hospital.Reachable.isHeap (n : Nat) (h : Hospital)
    (hreach : Hospital.Reachable n h) : StlHeap.IsHeap h.criticalPatients := by
  intro i hi _
  have hall := Hospital.Reachable.critical n h hreach
  have hparent : (i - 1) / 2 < h.criticalPatients.length := by omega
  have hc := hall _ (List.getElem_mem hparent)
  rw [List.getD_eq_getElem _ _ hparent]
  simp [Patient.lt, hc]

/-! ## Runs -/

theorem Hospital.run_cons (h : Hospital) (op : Hospital.Op) (ops : List Hospital.Op) :
    h.run (op :: ops)
      = ((h.step op).1 :: ((h.step op).2.run ops).1, ((h.step op).2.run ops).2) := by
  simp [Hospital.run]

theorem Hospital.run_append (h : Hospital) (ops1 ops2 : List Hospital.Op) :
    h.run (ops1 ++ ops2)
      = ((h.run ops1).1 ++ ((h.run ops1).2.run ops2).1, ((h.run ops1).2.run ops2).2) := by
  induction ops1 generalizing h with
  | nil => simp [Hospital.run]
  | cons op ops ih => simp [Hospital.run_cons, ih]

theorem Hospital.run_length (h : Hospital) (ops : List Hospital.Op) :
    (h.run ops).1.length = ops.length := by
  induction ops generalizing h with
  | nil => simp [Hospital.run]
  | cons op ops ih => simp [Hospital.run_cons, ih]

/-- Every state produced by a run from a fresh registry is reachable. -/
theorem Hospital.Reachable.run (n : Nat) (h : Hospital) (ops : List Hospital.Op)
    (hreach : Hospital.Reachable n h) : Hospital.Reachable n (h.run ops).2 := by
  induction ops generalizing h with
  | nil => simpa [Hospital.run] using hreach
  | cons op ops ih =>
    rw [Hospital.run_cons]
    exact ih _ (Hospital.Reachable.step h op hreach)

/-! ## The order of treatment -/

/-- Pushing onto a queue that holds only critical patients never moves anything: the
new element stays at the back of the vector. -/
theorem StlHeap.push_all_critical (c : List Patient) (x : Patient)
    (hall : ∀ p ∈ c, p.condition = "Critical") : StlHeap.push c x = c ++ [x] := by
  have hset : (c ++ [x]).set c.length x = c ++ [x] := by
    rw [List.set_append_right _ _ (Nat.le_refl _)]
    simp
  simp only [StlHeap.push, StlHeap.push_heap, List.getLast?_concat, StlHeap.push_heap_aux,
    List.length_append, List.length_singleton, Nat.add_sub_cancel]
  cases hc : c.length with
  | zero =>
    rw [hc] at hset
    simpa [StlHeap.push_heap_loop] using hset
  | succ m =>
    rw [hc] at hset
    have hparent : (m + 1 - 1) / 2 < c.length := by omega
    have hcrit : ((c ++ [x]).getD ((m + 1 - 1) / 2) x).condition = "Critical" := by
      rw [List.getD_eq_getElem _ _ (by simp; omega), List.getElem_append_left hparent]
      exact hall _ (List.getElem_mem hparent)
    have hlt : ((c ++ [x]).getD ((m + 1 - 1) / 2) x).lt x = false := by
      rw [Patient.lt, hcrit]
      rfl
    simp only [StlHeap.push_heap_loop]
    rw [hlt, Bool.and_false, if_neg (by simp), hset]

/-- The two queues after a successful admission. -/
theorem Hospital.admitPatient_free_queues (h : Hospital) (id : Int) (name : String)
    (age : Int) (condition admissionDate : String) (hfree : (0 : Int) ∈ h.rooms) :
    (h.admitPatient id name age condition admissionDate).2.criticalPatients
      = (if condition = "Critical"
          then StlHeap.push h.criticalPatients ⟨id, name, age, condition, admissionDate⟩
          else h.criticalPatients) ∧
    (h.admitPatient id name age condition admissionDate).2.stablePatients
      = (if condition = "Critical" then h.stablePatients
          else h.stablePatients ++ [⟨id, name, age, condition, admissionDate⟩]) := by
  obtain ⟨i, hi, hfind, -, -⟩ := Hospital.findAvailableRoomFrom_spec h.rooms 0 hfree
  have hroom : h.findAvailableRoom = (i : Int) := by
    simpa [Hospital.findAvailableRoom] using hfind
  have hne : ¬ ((i : Int) = -1) := by omega
  by_cases hc : condition = "Critical"
  · subst hc
    simp [Hospital.admitPatient, hroom, hne]
  · simp [Hospital.admitPatient, hroom, hne, hc]

/-- Admitting critical patients into a registry whose critical queue holds only critical
patients appends them to the vector of the queue in the order of admission. -/
theorem Hospital.run_admit_criticals (ps : List Patient) (h : Hospital) (a b : Nat)
    (hrooms : h.rooms = List.replicate a 1 ++ List.replicate b 0) (hlen : ps.length ≤ b)
    (hall : ∀ p ∈ h.criticalPatients, p.condition = "Critical")
    (hcrit : ∀ p ∈ ps, p.condition = "Critical") :
    (h.run (ps.map Hospital.Op.admitCall)).2.criticalPatients = h.criticalPatients ++ ps := by
  induction ps generalizing h a b with
  | nil => simp [Hospital.run]
  | cons p ps ih =>
    obtain ⟨b1, rfl⟩ : ∃ b1, b = b1 + 1 := ⟨b - 1, by simp at hlen; omega⟩
    obtain ⟨-, hnext⟩ := Hospital.admitPatient_ones h p a b1 hrooms
    have hp : p.condition = "Critical" := hcrit p (List.mem_cons_self _ _)
    have hfree : (0 : Int) ∈ h.rooms := by
      rw [hrooms]
      simp [List.replicate_succ]
    have hq : (h.step (Hospital.Op.admitCall p)).2.criticalPatients
        = h.criticalPatients ++ [p] := by
      have := (Hospital.admitPatient_free_queues h p.id p.name p.age p.condition
        p.admissionDate hfree).1
      rw [if_pos hp, StlHeap.push_all_critical _ _ hall] at this
      exact this
    have hall1 : ∀ q ∈ (h.step (Hospital.Op.admitCall p)).2.criticalPatients,
        q.condition = "Critical" := Hospital.step_critical h _ hall
    rw [List.map_cons, Hospital.run_cons]
    simp only
    rw [ih _ (a + 1) b1 hnext (by simpa using hlen) hall1
      (fun q hq1 => hcrit q (List.mem_cons_of_mem _ hq1)), hq]
    simp

theorem StlHeap.pop_length (p : Patient) (t : List Patient) :
    (StlHeap.pop (p :: t)).length = t.length :=
  (StlHeap.pop_perm p t).length_eq

/-- Draining a queue completely takes every element exactly once. -/
theorem StlHeap.drain_perm (k : Nat) (c : List Patient) (hk : c.length = k) :
    (StlHeap.drain k c).Perm c := by
  induction k generalizing c with
  | zero =>
    have : c = [] := List.length_eq_zero.1 hk
    subst this
    exact List.Perm.refl _
  | succ k ih =>
    cases c with
    | nil => simp at hk
    | cons p t =>
      simp only [StlHeap.drain, StlHeap.top, List.head?_cons]
      have hlen : (StlHeap.pop (p :: t)).length = k := by
        rw [StlHeap.pop_length]
        simpa using hk
      exact List.Perm.cons p ((ih _ hlen).trans (StlHeap.pop_perm p t))

/-- The first element taken from a queue is the front of its vector. -/
theorem StlHeap.drain_head (k : Nat) (c : List Patient) :
    (StlHeap.drain (k + 1) c).head? = c.head? := by
  cases c with
  | nil => rfl
  | cons p t => simp [StlHeap.drain, StlHeap.top]

/-- Successive calls of `manageCriticalPatients`, no more than the queue has entries,
print the drained patients in order. -/
theorem Hospital.run_manage (k : Nat) (h : Hospital) (hk : k ≤ h.criticalPatients.length) :
    (h.run (List.replicate k Hospital.Op.manageCall)).1
      = (StlHeap.drain k h.criticalPatients).map Hospital.treatingLine := by
  induction k generalizing h with
  | zero => simp [Hospital.run, StlHeap.drain]
  | succ k ih =>
    obtain ⟨crit, stable, records, rooms⟩ := h
    cases crit with
    | nil => simp at hk
    | cons p t =>
      rw [List.replicate_succ, Hospital.run_cons]
      have hlen : k ≤ (StlHeap.pop (p :: t)).length := by
        rw [StlHeap.pop_length]
        simpa using hk
      have hstep := ih (Hospital.step ⟨p :: t, stable, records, rooms⟩
        Hospital.Op.manageCall).2 hlen
      simp only [hstep]
      simp [Hospital.step, Hospital.manageCriticalPatients, StlHeap.top, StlHeap.drain,
        Hospital.treatingLine]

/-- Up to three critical patients leave the queue in the order of its vector. -/
theorem StlHeap.drain_small (c : List Patient) (hlen : c.length ≤ 3)
    (hall : ∀ p ∈ c, p.condition = "Critical") : StlHeap.drain c.length c = c := by
  match c, hlen, hall with
  | [], _, _ => rfl
  | [a], _, _ => simp [StlHeap.drain, StlHeap.top, StlHeap.pop, StlHeap.pop_heap]
  | [a, b], _, hall =>
    have hb : b.condition = "Critical" := hall b (by simp)
    simp [StlHeap.drain, StlHeap.top, StlHeap.pop, StlHeap.pop_heap, StlHeap.adjust_heap,
      StlHeap.adjust_heap_loop, StlHeap.push_heap_aux, StlHeap.push_heap_loop]
  | [a, b, c], _, hall =>
    have hb : b.condition = "Critical" := hall b (by simp)
    have hc : c.condition = "Critical" := hall c (by simp)
    simp [StlHeap.drain, StlHeap.top, StlHeap.pop, StlHeap.pop_heap, StlHeap.adjust_heap,
      StlHeap.adjust_heap_loop, StlHeap.push_heap_aux, StlHeap.push_heap_loop, Patient.lt,
      hb, hc]
  | _ :: _ :: _ :: _ :: _, hlen, _ =>
    simp only [List.length_cons] at hlen
    omega

/-- C11 (counterexample): four critical patients admitted in the order 1, 2, 3, 4 into
a fresh registry of four rooms are treated in the order 1, 3, 2, 4, which is not the
order of admission. -/
theorem treatment_order_differs_from_admission_order :
    (((Hospital.init 4).run
      (([⟨1, "A", 30, "Critical", "01-01-2024"⟩, ⟨2, "B", 40, "Critical", "02-01-2024"⟩,
         ⟨3, "C", 50, "Critical", "03-01-2024"⟩, ⟨4, "D", 60, "Critical", "04-01-2024"⟩] :
          List Patient).map Hospital.Op.admitCall
        ++ List.replicate 4 Hospital.Op.manageCall)).1.drop 4
      = [Output.treating "A" 1, Output.treating "C" 3, Output.treating "B" 2,
         Output.treating "D" 4]) ∧
    ((Hospital.init 4).run
      (([⟨1, "A", 30, "Critical", "01-01-2024"⟩, ⟨2, "B", 40, "Critical", "02-01-2024"⟩,
         ⟨3, "C", 50, "Critical", "03-01-2024"⟩, ⟨4, "D", 60, "Critical", "04-01-2024"⟩] :
          List Patient).map Hospital.Op.admitCall
        ++ List.replicate 4 Hospital.Op.manageCall)).1.drop 4
      ≠ ([⟨1, "A", 30, "Critical", "01-01-2024"⟩, ⟨2, "B", 40, "Critical", "02-01-2024"⟩,
         ⟨3, "C", 50, "Critical", "03-01-2024"⟩, ⟨4, "D", 60, "Critical", "04-01-2024"⟩] :
          List Patient).map Hospital.treatingLine := by
  decide

/-- C11 (amended): critical patients admitted into a fresh registry with enough rooms
and then treated by as many `manageCriticalPatients` calls are each treated exactly
once, in the order in which the heap releases them: that order is a permutation of the
order of admission, it starts with the patient admitted first, and for at most three
patients it is the order of admission. -/
theorem critical_treatment_order (n : Nat) (ps : List Patient) (hlen : ps.length ≤ n)
    (hcrit : ∀ p ∈ ps, p.condition = "Critical") :
    ((Hospital.init n).run
        (ps.map Hospital.Op.admitCall ++ List.replicate ps.length Hospital.Op.manageCall)).1
      = ((Hospital.init n).run (ps.map Hospital.Op.admitCall)).1
          ++ (StlHeap.drain ps.length ps).map Hospital.treatingLine ∧
    (StlHeap.drain ps.length ps).Perm ps ∧
    (StlHeap.drain ps.length ps).head? = ps.head? ∧
    (ps.length ≤ 3 → StlHeap.drain ps.length ps = ps) := by
  have hinit : (Hospital.init n).rooms = List.replicate 0 1 ++ List.replicate n 0 := by
    simp [Hospital.init]
  have hqueue := Hospital.run_admit_criticals ps (Hospital.init n) 0 n hinit hlen
    (by simp [Hospital.init]) hcrit
  have hq : ((Hospital.init n).run (ps.map Hospital.Op.admitCall)).2.criticalPatients = ps := by
    simpa [Hospital.init] using hqueue
  refine ⟨?_, StlHeap.drain_perm _ _ rfl, ?_, fun h3 => StlHeap.drain_small ps h3 hcrit⟩
  · rw [Hospital.run_append]
    simp only
    rw [Hospital.run_manage _ _ (by rw [hq]), hq]
  · cases ps with
    | nil => rfl
    | cons p t => exact StlHeap.drain_head _ _

/-- Witness for C11: three critical patients are treated in the order of admission. -/
theorem critical_treatment_order_witness :
    ([⟨1, "A", 30, "Critical", "01-01-2024"⟩, ⟨2, "B", 40, "Critical", "02-01-2024"⟩,
        ⟨3, "C", 50, "Critical", "03-01-2024"⟩] : List Patient).length ≤ 3 ∧
    (∀ p ∈ ([⟨1, "A", 30, "Critical", "01-01-2024"⟩, ⟨2, "B", 40, "Critical", "02-01-2024"⟩,
        ⟨3, "C", 50, "Critical", "03-01-2024"⟩] : List Patient), p.condition = "Critical") ∧
    StlHeap.drain 3 [⟨1, "A", 30, "Critical", "01-01-2024"⟩,
        ⟨2, "B", 40, "Critical", "02-01-2024"⟩, ⟨3, "C", 50, "Critical", "03-01-2024"⟩]
      = [⟨1, "A", 30, "Critical", "01-01-2024"⟩, ⟨2, "B", 40, "Critical", "02-01-2024"⟩,
        ⟨3, "C", 50, "Critical", "03-01-2024"⟩] :=
  ⟨by decide, by decide,
    (critical_treatment_order 3
      [⟨1, "A", 30, "Critical", "01-01-2024"⟩, ⟨2, "B", 40, "Critical", "02-01-2024"⟩,
        ⟨3, "C", 50, "Critical", "03-01-2024"⟩] (by decide) (by decide)).2.2.2 (by decide)⟩

/-! ## The record list along a run -/

/-- An admission either finds no free room, prints so and changes nothing, or prints
"admitted" and appends the record. -/
theorem Hospital.step_admit_cases (h : Hospital) (d : Patient) :
    ((0 : Int) ∉ h.rooms ∧ h.step (Hospital.Op.admitCall d) = (Output.noRoomsAvailable, h)) ∨
    ((0 : Int) ∈ h.rooms ∧
      (∃ i : Nat, (h.step (Hospital.Op.admitCall d)).1 = Output.admitted d.name ((i : Int) + 1)) ∧
      (h.step (Hospital.Op.admitCall d)).2.patientRecords = h.patientRecords ++ [d]) := by
  by_cases hfree : (0 : Int) ∈ h.rooms
  · right
    obtain ⟨i, hi, hfind, -, -⟩ := Hospital.findAvailableRoomFrom_spec h.rooms 0 hfree
    have hroom : h.findAvailableRoom = (i : Int) := by
      simpa [Hospital.findAvailableRoom] using hfind
    have hne : ¬ ((i : Int) = -1) := by omega
    refine ⟨hfree, ⟨i, ?_⟩, ?_⟩
    · simp [Hospital.step, Hospital.admitPatient, hroom, hne]
    · exact (Hospital.admitPatient_free h d.id d.name d.age d.condition d.admissionDate
        hfree).elim (fun _ hx => hx.2.2.2)
  · left
    have hfull : h.findAvailableRoom = -1 :=
      Hospital.findAvailableRoomFrom_full h.rooms 0 (fun r hr h0 => hfree (h0 ▸ hr))
    exact ⟨hfree, by simp [Hospital.step, Hospital.admitPatient, hfull]⟩

/-- A discharge either finds no record, prints so and changes nothing, or prints
"discharged" and erases the first record with the id. -/
theorem Hospital.step_discharge_cases (h : Hospital) (id : Int) :
    ((∀ p ∈ h.patientRecords, p.id ≠ id) ∧
      h.step (Hospital.Op.dischargeCall id) = (Output.notFound id, h)) ∨
    (∃ p l1 l2, h.patientRecords = l1 ++ p :: l2 ∧ p.id = id ∧ (∀ q ∈ l1, q.id ≠ id) ∧
      (h.step (Hospital.Op.dischargeCall id)).1 = Output.discharged p.name ∧
      (h.step (Hospital.Op.dischargeCall id)).2.patientRecords = l1 ++ l2 ∧
      (h.step (Hospital.Op.dischargeCall id)).2.criticalPatients = h.criticalPatients ∧
      (h.step (Hospital.Op.dischargeCall id)).2.stablePatients = h.stablePatients) := by
  by_cases hpresent : ∃ p ∈ h.patientRecords, p.id = id
  · right
    obtain ⟨p, l1, l2, hl, hid, hmin, hfind⟩ :=
      Hospital.findRecord_some id h.patientRecords hpresent
    exact ⟨p, l1, l2, hl, hid, hmin, by simp [Hospital.step, Hospital.dischargePatient, hfind],
      by simp [Hospital.step, Hospital.dischargePatient, hfind],
      by simp [Hospital.step, Hospital.dischargePatient, hfind],
      by simp [Hospital.step, Hospital.dischargePatient, hfind]⟩
  · left
    have habsent : ∀ p ∈ h.patientRecords, p.id ≠ id := fun p hp hid => hpresent ⟨p, hp, hid⟩
    have hnone := Hospital.findRecord_none id h.patientRecords habsent
    exact ⟨habsent, by simp [Hospital.step, Hospital.dischargePatient, hnone]⟩

/-- A treatment prints "no critical patients" or a treating line; it never touches the
records or the rooms. -/
theorem Hospital.step_manage_cases (h : Hospital) :
    ((h.step Hospital.Op.manageCall).1 = Output.noCriticalPatients ∨
      ∃ p : Patient, (h.step Hospital.Op.manageCall).1 = Output.treating p.name p.id) ∧
    (h.step Hospital.Op.manageCall).2.patientRecords = h.patientRecords ∧
    (h.step Hospital.Op.manageCall).2.rooms = h.rooms := by
  obtain ⟨crit, stable, records, rooms⟩ := h
  cases crit with
  | nil => exact ⟨Or.inl rfl, rfl, rfl⟩
  | cons p t => exact ⟨Or.inr ⟨p, rfl⟩, rfl, rfl⟩

/-- Along any run the record list is a subsequence of the starting records followed by
the successfully admitted records, and records are only ever removed by successful
discharges, one each. -/
theorem Hospital.run_records (ops : List Hospital.Op) (h : Hospital) :
    (h.run ops).2.patientRecords.Sublist (h.patientRecords ++ h.admittedRecords ops) ∧
    (h.run ops).2.patientRecords.length + h.dischargeCount ops
      = h.patientRecords.length + (h.admittedRecords ops).length := by
  induction ops generalizing h with
  | nil => simp [Hospital.run, Hospital.admittedRecords, Hospital.dischargeCount]
  | cons op ops ih =>
    obtain ⟨ihsub, ihlen⟩ := ih (h.step op).2
    rw [Hospital.run_cons]
    simp only
    cases op with
    | admitCall d =>
      rcases Hospital.step_admit_cases h d with ⟨-, hstep⟩ | ⟨-, ⟨i, hout⟩, hrec⟩
      · rw [hstep] at ihsub ihlen ⊢
        simpa [Hospital.admittedRecords, Hospital.dischargeCount, hstep] using ⟨ihsub, ihlen⟩
      · rw [hrec] at ihsub ihlen
        simp only [Hospital.admittedRecords, Hospital.dischargeCount, hout]
        constructor
        · simpa using ihsub
        · simp only [List.length_append, List.length_cons, List.length_nil] at ihlen ⊢
          omega
    | dischargeCall id =>
      rcases Hospital.step_discharge_cases h id with
        ⟨-, hstep⟩ | ⟨p, l1, l2, hl, -, -, hout, hrec, -, -⟩
      · rw [hstep] at ihsub ihlen ⊢
        simpa [Hospital.admittedRecords, Hospital.dischargeCount, hstep] using ⟨ihsub, ihlen⟩
      · rw [hrec] at ihsub ihlen
        simp only [Hospital.admittedRecords, Hospital.dischargeCount, hout]
        constructor
        · refine ihsub.trans (List.Sublist.append_right ?_ _)
          rw [hl]
          exact List.Sublist.append_left (List.sublist_cons_self p l2) l1
        · rw [hl]
          simp only [List.length_append, List.length_cons] at ihlen ⊢
          omega
    | manageCall =>
      obtain ⟨-, hrec, -⟩ := Hospital.step_manage_cases h
      rw [hrec] at ihsub ihlen
      simpa [Hospital.admittedRecords, Hospital.dischargeCount] using ⟨ihsub, ihlen⟩

/-- Every reachable state is the final state of a run from the fresh registry. -/
theorem Hospital.Reachable.exists_run (n : Nat) (h : Hospital)
    (hreach : Hospital.Reachable n h) : ∃ ops, h = ((Hospital.init n).run ops).2 := by
  induction hreach with
  | init => exact ⟨[], rfl⟩
  | step h op _ ih =>
    obtain ⟨ops, hops⟩ := ih
    refine ⟨ops ++ [op], ?_⟩
    rw [Hospital.run_append, ← hops]
    simp [Hospital.run]

/-- C12: after any sequence of calls on a fresh registry, `displayPatientRecords` lists
the record list in its order (or prints the "no records" line when it is empty); the
record list is a subsequence of the successfully admitted records, taken in the order of
admission and exactly as they were supplied; and its length is the number of successful
admissions minus the number of successful discharges. -/
theorem listed_records_in_admission_order (n : Nat) (ops : List Hospital.Op) :
    ((Hospital.init n).run ops).2.displayPatientRecords
      = (if ((Hospital.init n).run ops).2.patientRecords = [] then Hospital.Listing.noRecords
          else Hospital.Listing.table ((Hospital.init n).run ops).2.patientRecords) ∧
    ((Hospital.init n).run ops).2.patientRecords.Sublist
      ((Hospital.init n).admittedRecords ops) ∧
    ((Hospital.init n).run ops).2.patientRecords.length
      = ((Hospital.init n).admittedRecords ops).length - (Hospital.init n).dischargeCount ops := by
  obtain ⟨hsub, hlen⟩ := Hospital.run_records ops (Hospital.init n)
  refine ⟨?_, ?_, ?_⟩
  · cases hrec : ((Hospital.init n).run ops).2.patientRecords <;>
      simp [Hospital.displayPatientRecords, hrec]
  · simpa [Hospital.init] using hsub
  · have h0 : (Hospital.init n).patientRecords.length = 0 := rfl
    rw [h0] at hlen
    omega

/-- C13 (the code at a failing input): two patients admitted with dates 02-01-2024 and
then 01-01-2024 are listed in that order, the order of admission, which is not the
order of their admission dates. -/
theorem displayPatientRecords_unsorted :
    ((Hospital.init 2).run
      [Hospital.Op.admitCall ⟨1, "A", 30, "Stable", "02-01-2024"⟩,
       Hospital.Op.admitCall ⟨2, "B", 40, "Stable", "01-01-2024"⟩]).2.displayPatientRecords
      = Hospital.Listing.table [⟨1, "A", 30, "Stable", "02-01-2024"⟩,
          ⟨2, "B", 40, "Stable", "01-01-2024"⟩] ∧
    ¬ SortedByDate [⟨1, "A", 30, "Stable", "02-01-2024"⟩,
          ⟨2, "B", 40, "Stable", "01-01-2024"⟩] := by
  decide

/-! ## The room table -/

theorem Hospital.step_rooms_length (h : Hospital) (op : Hospital.Op) :
    (h.step op).2.rooms.length = h.rooms.length := by
  cases op with
  | admitCall d =>
    by_cases hfree : (0 : Int) ∈ h.rooms
    · obtain ⟨i, -, -, hrooms, -⟩ :=
        Hospital.admitPatient_free h d.id d.name d.age d.condition d.admissionDate hfree
      simp only [Hospital.step, hrooms, List.length_set]
    · rcases Hospital.step_admit_cases h d with ⟨-, hstep⟩ | ⟨hmem, -, -⟩
      · rw [hstep]
      · exact absurd hmem hfree
  | dischargeCall id =>
    simp only [Hospital.step, Hospital.dischargePatient]
    split
    · simp only
      split <;> simp
    · rfl
  | manageCall => rw [(Hospital.step_manage_cases h).2.2]

/-- C14: in every state reachable from a fresh registry of `n` rooms the room table has
exactly `n` entries, each `0` or `1`, and at most `n` rooms are occupied; no call
changes the size of the table. -/
theorem reachable_room_table (n : Nat) (h : Hospital) (hreach : Hospital.Reachable n h) :
    h.rooms.length = n ∧ (∀ r ∈ h.rooms, r = 0 ∨ r = 1) ∧ h.occupiedRooms ≤ n ∧
    ∀ op, (h.step op).2.rooms.length = h.rooms.length := by
  have hinv := Hospital.Reachable.inv n h hreach
  refine ⟨hinv.size, hinv.flags, ?_, Hospital.step_rooms_length h⟩
  rw [← hinv.size]
  exact List.countP_le_length _

/-- Witness for C14: the state after one admission into a fresh two-room registry. -/
theorem reachable_room_table_witness :
    Hospital.Reachable 2
      ((Hospital.init 2).step
        (Hospital.Op.admitCall ⟨1, "A", 30, "Critical", "01-01-2024"⟩)).2 ∧
    ((Hospital.init 2).step
        (Hospital.Op.admitCall ⟨1, "A", 30, "Critical", "01-01-2024"⟩)).2.rooms.length = 2 :=
  ⟨Hospital.Reachable.step _ _ Hospital.Reachable.init,
    (reachable_room_table 2 _ (Hospital.Reachable.step _ _ Hospital.Reachable.init)).1⟩

/-! ## What discharge and treatment leave alone -/

/-- C15: `dischargePatient` leaves the critical queue and the stable queue as they are,
whether or not the id is found, and `manageCriticalPatients` leaves the record list and
the room table as they are, so a treated patient keeps the old condition in the record
list. -/
theorem discharge_and_treatment_frames (h : Hospital) (id : Int) :
    (h.dischargePatient id).2.criticalPatients = h.criticalPatients ∧
    (h.dischargePatient id).2.stablePatients = h.stablePatients ∧
    h.manageCriticalPatients.2.patientRecords = h.patientRecords ∧
    h.manageCriticalPatients.2.rooms = h.rooms := by
  refine ⟨?_, ?_, (Hospital.step_manage_cases h).2.1, (Hospital.step_manage_cases h).2.2⟩
  · rcases Hospital.step_discharge_cases h id with ⟨-, hstep⟩ | ⟨_, _, _, -, -, -, -, -, hc, -⟩
    · simp only [Hospital.step] at hstep
      rw [hstep]
    · exact hc
  · rcases Hospital.step_discharge_cases h id with ⟨-, hstep⟩ | ⟨_, _, _, -, -, -, -, -, -, hs⟩
    · simp only [Hospital.step] at hstep
      rw [hstep]
    · exact hs

/-! ## Which room a discharge vacates -/

/-- The room table after a successful discharge is computed from the old room table
alone. -/
theorem Hospital.dischargePatient_rooms (h : Hospital) (id : Int)
    (hpresent : ∃ p ∈ h.patientRecords, p.id = id) :
    (h.dischargePatient id).2.rooms
      = (if Hospital.findRoomByPatientFrom h.rooms 0 != -1
          then h.rooms.set (Hospital.findRoomByPatientFrom h.rooms 0).toNat 0
          else h.rooms) := by
  obtain ⟨p, l1, l2, -, -, -, hfind⟩ := Hospital.findRecord_some id h.patientRecords hpresent
  simp only [Hospital.dischargePatient, hfind, Hospital.findRoomByPatient]

/-- C16: in a state with an occupied room (an entry `1`), discharging any present id
sets the occupied room of lowest index to `0` and changes no other entry of the room
table, so discharging two present ids from the same state gives the same room table. -/
theorem dischargePatient_frees_lowest_occupied (h : Hospital) (id1 id2 : Int)
    (hocc : (1 : Int) ∈ h.rooms) (hp1 : ∃ p ∈ h.patientRecords, p.id = id1)
    (hp2 : ∃ p ∈ h.patientRecords, p.id = id2) :
    (∃ i, i < h.rooms.length ∧ h.rooms[i]? = some 1 ∧
      (∀ j, j < i → h.rooms[j]? ≠ some 1) ∧
      ((∀ r ∈ h.rooms, r = 0 ∨ r = 1) → ∀ j, j < i → h.rooms[j]? = some 0) ∧
      (h.dischargePatient id1).2.rooms = h.rooms.set i 0 ∧
      (h.dischargePatient id1).2.rooms[i]? = some 0 ∧
      (∀ j, j ≠ i → (h.dischargePatient id1).2.rooms[j]? = h.rooms[j]?)) ∧
    (h.dischargePatient id1).2.rooms = (h.dischargePatient id2).2.rooms := by
  obtain ⟨p, l1, l2, -, -, -, hfind⟩ := Hospital.findRecord_some id1 h.patientRecords hp1
  obtain ⟨i, hi, hget, hmin, heq⟩ := Hospital.dischargePatient_found h id1 p _ hfind hocc
  have hrooms : (h.dischargePatient id1).2.rooms = h.rooms.set i 0 := by rw [heq]
  refine ⟨⟨i, hi, hget, hmin, ?_, hrooms, ?_, ?_⟩, ?_⟩
  · intro hflags j hj
    have hjlen : j < h.rooms.length := by omega
    have hne := hmin j hj
    rw [List.getElem?_eq_getElem hjlen] at hne ⊢
    rcases hflags _ (List.getElem_mem hjlen) with h0 | h1
    · rw [h0]
    · exact absurd (by rw [h1]) hne
  · rw [hrooms]
    simp [hi]
  · intro j hj
    rw [hrooms]
    exact List.getElem?_set_ne (Ne.symm hj)
  · rw [Hospital.dischargePatient_rooms h id1 hp1, Hospital.dischargePatient_rooms h id2 hp2]

/-- Witness for C16: rooms 2 and 3 occupied, patients 5 and 6 present. -/
theorem dischargePatient_frees_lowest_occupied_witness :
    (1 : Int) ∈ (Hospital.mk [] [] [⟨5, "E", 30, "Stable", "01-01-2024"⟩,
        ⟨6, "F", 40, "Stable", "02-01-2024"⟩] [0, 1, 1]).rooms ∧
    (∃ p ∈ (Hospital.mk [] [] [⟨5, "E", 30, "Stable", "01-01-2024"⟩,
        ⟨6, "F", 40, "Stable", "02-01-2024"⟩] [0, 1, 1]).patientRecords, p.id = 5) ∧
    (∃ p ∈ (Hospital.mk [] [] [⟨5, "E", 30, "Stable", "01-01-2024"⟩,
        ⟨6, "F", 40, "Stable", "02-01-2024"⟩] [0, 1, 1]).patientRecords, p.id = 6) ∧
    ((Hospital.mk [] [] [⟨5, "E", 30, "Stable", "01-01-2024"⟩,
        ⟨6, "F", 40, "Stable", "02-01-2024"⟩] [0, 1, 1]).dischargePatient 5).2.rooms
      = ((Hospital.mk [] [] [⟨5, "E", 30, "Stable", "01-01-2024"⟩,
        ⟨6, "F", 40, "Stable", "02-01-2024"⟩] [0, 1, 1]).dischargePatient 6).2.rooms :=
  ⟨by decide, by decide, by decide,
    (dischargePatient_frees_lowest_occupied _ 5 6 (by decide) (by decide) (by decide)).2⟩

/-! ## Stale queue entries -/

/-- C17: on a fresh one-room registry, admitting a critical patient with id 1,
discharging id 1 and then calling `manageCriticalPatients` treats patient 1 and moves
the patient to the stable queue although the record list is empty and no room is
occupied. -/
theorem stale_critical_entry_is_treated :
    (Hospital.init 1).run
      [Hospital.Op.admitCall ⟨1, "A", 30, "Critical", "01-01-2024"⟩,
       Hospital.Op.dischargeCall 1,
       Hospital.Op.manageCall]
      = ([Output.admitted "A" 1, Output.discharged "A", Output.treating "A" 1],
         { criticalPatients := [],
           stablePatients := [⟨1, "A", 30, "Stable", "01-01-2024"⟩],
           patientRecords := [],
           rooms := [0] }) ∧
    ((Hospital.init 1).run
      [Hospital.Op.admitCall ⟨1, "A", 30, "Critical", "01-01-2024"⟩,
       Hospital.Op.dischargeCall 1]).2
      = { criticalPatients := [⟨1, "A", 30, "Critical", "01-01-2024"⟩],
          stablePatients := [],
          patientRecords := [],
          rooms := [0] } ∧
    ((Hospital.init 1).run
      [Hospital.Op.admitCall ⟨1, "A", 30, "Critical", "01-01-2024"⟩,
       Hospital.Op.dischargeCall 1,
       Hospital.Op.manageCall]).2.occupiedRooms = 0 := by
  decide

/-! ## Records and occupied rooms -/

theorem Hospital.count_flags (l : List Int) (hflags : ∀ r ∈ l, r = 0 ∨ r = 1) :
    l.countP (fun r => r != 0) = l.count 1 ∧ l.count 0 + l.count 1 = l.length := by
  induction l with
  | nil => simp
  | cons r rest ih =>
    obtain ⟨ih1, ih2⟩ := ih (fun x hx => hflags x (List.mem_cons_of_mem _ hx))
    rcases hflags r (List.mem_cons_self _ _) with h0 | h1
    · subst h0
      simp only [List.countP_cons, List.count_cons, List.length_cons, ih1]
      constructor
      · simp
      · simp
        omega
    · subst h1
      simp only [List.countP_cons, List.count_cons, List.length_cons, ih1]
      constructor
      · simp
      · simp
        omega

/-- C18: in every reachable state there are as many records as occupied rooms, and so
`admitPatient` succeeds exactly when there are fewer records than rooms. -/
theorem records_match_occupied_rooms (n : Nat) (h : Hospital)
    (hreach : Hospital.Reachable n h) :
    h.patientRecords.length = h.occupiedRooms ∧
    ∀ (id : Int) (name : String) (age : Int) (condition admissionDate : String),
      ((∃ k : Int, (h.admitPatient id name age condition admissionDate).1
          = Output.admitted name k) ↔ h.patientRecords.length < n) ∧
      ((h.admitPatient id name age condition admissionDate).1 = Output.noRoomsAvailable
        ↔ n ≤ h.patientRecords.length) := by
  have hinv := Hospital.Reachable.inv n h hreach
  obtain ⟨hocc, hsum⟩ := Hospital.count_flags h.rooms hinv.flags
  have hfree : (0 : Int) ∈ h.rooms ↔ h.patientRecords.length < n := by
    rw [← List.count_pos_iff, ← hinv.count, ← hinv.size]
    omega
  refine ⟨by rw [Hospital.occupiedRooms, hocc, hinv.count], ?_⟩
  intro id name age condition admissionDate
  rcases Hospital.step_admit_cases h ⟨id, name, age, condition, admissionDate⟩ with
    ⟨hnone, hstep⟩ | ⟨hmem, ⟨i, hout⟩, -⟩
  · have hstep1 : h.admitPatient id name age condition admissionDate
        = (Output.noRoomsAvailable, h) := hstep
    have hge : n ≤ h.patientRecords.length := by
      have := mt hfree.2 hnone
      omega
    rw [hstep1]
    constructor
    · constructor
      · rintro ⟨k, hk⟩
        cases hk
      · intro hlt
        omega
    · exact ⟨fun _ => hge, fun _ => rfl⟩
  · have hout1 : (h.admitPatient id name age condition admissionDate).1
        = Output.admitted name ((i : Int) + 1) := hout
    have hlt := hfree.1 hmem
    rw [hout1]
    constructor
    · exact ⟨fun _ => hlt, fun _ => ⟨_, rfl⟩⟩
    · constructor
      · intro hk
        cases hk
      · intro hge
        omega

/-- Witness for C18: the state after one admission into a fresh two-room registry. -/
theorem records_match_occupied_rooms_witness :
    Hospital.Reachable 2
      ((Hospital.init 2).step
        (Hospital.Op.admitCall ⟨1, "A", 30, "Critical", "01-01-2024"⟩)).2 ∧
    ((Hospital.init 2).step
        (Hospital.Op.admitCall ⟨1, "A", 30, "Critical", "01-01-2024"⟩)).2.patientRecords.length
      = ((Hospital.init 2).step
        (Hospital.Op.admitCall ⟨1, "A", 30, "Critical", "01-01-2024"⟩)).2.occupiedRooms :=
  ⟨Hospital.Reachable.step _ _ Hospital.Reachable.init,
    (records_match_occupied_rooms 2 _ (Hospital.Reachable.step _ _ Hospital.Reachable.init)).1⟩

/-! ## The queues along a run -/

/-- The stable queue is only ever appended to, and a call changes the total number of
queue entries by one exactly when it is a successful admission. -/
theorem Hospital.step_queues (h : Hospital) (op : Hospital.Op) :
    h.stablePatients <+: (h.step op).2.stablePatients ∧
    (h.step op).2.criticalPatients.length + (h.step op).2.stablePatients.length
      = h.criticalPatients.length + h.stablePatients.length
        + (h.admittedRecords [op]).length := by
  cases op with
  | admitCall d =>
    rcases Hospital.step_admit_cases h d with ⟨-, hstep⟩ | ⟨hfree, ⟨i, hout⟩, -⟩
    · simp [Hospital.admittedRecords, hstep]
    · obtain ⟨hc, hs⟩ := Hospital.admitPatient_free_queues h d.id d.name d.age d.condition
        d.admissionDate hfree
      have hc1 : (h.step (Hospital.Op.admitCall d)).2.criticalPatients = _ := hc
      have hs1 : (h.step (Hospital.Op.admitCall d)).2.stablePatients = _ := hs
      rw [hc1, hs1]
      simp only [Hospital.admittedRecords, hout, List.length_cons, List.length_nil]
      by_cases hcond : d.condition = "Critical"
      · rw [if_pos hcond, if_pos hcond, (StlHeap.push_perm _ _).length_eq]
        refine ⟨List.prefix_refl _, ?_⟩
        simp only [List.length_append, List.length_singleton]
        omega
      · rw [if_neg hcond, if_neg hcond]
        refine ⟨List.prefix_append _ _, ?_⟩
        simp only [List.length_append, List.length_singleton]
        omega
  | dischargeCall id =>
    rcases Hospital.step_discharge_cases h id with
      ⟨-, hstep⟩ | ⟨p, l1, l2, -, -, -, hout, -, hc, hs⟩
    · simp [Hospital.admittedRecords, hstep]
    · rw [hc, hs]
      simp [Hospital.admittedRecords, hout]
  | manageCall =>
    obtain ⟨crit, stable, records, rooms⟩ := h
    cases crit with
    | nil => simp [Hospital.step, Hospital.manageCriticalPatients, StlHeap.top,
        Hospital.admittedRecords]
    | cons p t =>
      have hpop := StlHeap.pop_length p t
      simp only [Hospital.step, Hospital.manageCriticalPatients, StlHeap.top, List.head?_cons,
        Hospital.admittedRecords, hpop, List.length_append, List.length_cons, List.length_nil]
      refine ⟨List.prefix_append _ _, ?_⟩
      omega

theorem Hospital.admittedRecords_cons (h : Hospital) (op : Hospital.Op)
    (ops : List Hospital.Op) :
    h.admittedRecords (op :: ops)
      = h.admittedRecords [op] ++ (h.step op).2.admittedRecords ops := by
  simp only [Hospital.admittedRecords]
  split <;> simp

theorem Hospital.run_queues (ops : List Hospital.Op) (h : Hospital) :
    (h.run ops).2.criticalPatients.length + (h.run ops).2.stablePatients.length
      = h.criticalPatients.length + h.stablePatients.length
        + (h.admittedRecords ops).length := by
  induction ops generalizing h with
  | nil => simp [Hospital.run, Hospital.admittedRecords]
  | cons op ops ih =>
    rw [Hospital.run_cons, Hospital.admittedRecords_cons]
    simp only [List.length_append]
    rw [ih, (Hospital.step_queues h op).2]
    omega

/-- C19: after any sequence of calls on a fresh registry the critical queue and the
stable queue together hold as many entries as there were successful admissions; every
further call leaves the stable queue a prefix of the new stable queue; and every entry
of the critical queue has condition "Critical". -/
theorem queue_entries_never_dropped (n : Nat) (ops : List Hospital.Op) :
    ((Hospital.init n).run ops).2.criticalPatients.length
        + ((Hospital.init n).run ops).2.stablePatients.length
      = ((Hospital.init n).admittedRecords ops).length ∧
    (∀ op, ((Hospital.init n).run ops).2.stablePatients
      <+: (((Hospital.init n).run ops).2.step op).2.stablePatients) ∧
    (∀ p ∈ ((Hospital.init n).run ops).2.criticalPatients, p.condition = "Critical") := by
  refine ⟨?_, fun op => (Hospital.step_queues _ op).1, ?_⟩
  · have := Hospital.run_queues ops (Hospital.init n)
    have h0 : (Hospital.init n).criticalPatients.length = 0 := rfl
    have h1 : (Hospital.init n).stablePatients.length = 0 := rfl
    rw [h0, h1] at this
    omega
  · exact Hospital.Reachable.critical n _
      (Hospital.Reachable.run n _ ops Hospital.Reachable.init)

/-! ## The comparison of patients -/

/-- C20: `Patient::operator<` is a strict weak ordering: it is irreflexive, asymmetric
and transitive; two patients are incomparable exactly when both or neither have
condition "Critical", so incomparability is reflexive, symmetric and transitive with the
two classes "Critical" and "not Critical", both inhabited; and every patient that is not
critical is below every critical one. -/
theorem patient_lt_strict_weak_order :
    (∀ a : Patient, a.lt a = false) ∧
    (∀ a b : Patient, a.lt b = true → b.lt a = false) ∧
    (∀ a b c : Patient, a.lt b = true → b.lt c = true → a.lt c = true) ∧
    (∀ a b : Patient, (a.lt b = false ∧ b.lt a = false)
      ↔ (a.condition = "Critical" ↔ b.condition = "Critical")) ∧
    (∀ a : Patient, a.lt a = false ∧ a.lt a = false) ∧
    (∀ a b : Patient, (a.lt b = false ∧ b.lt a = false) → (b.lt a = false ∧ a.lt b = false)) ∧
    (∀ a b c : Patient, (a.lt b = false ∧ b.lt a = false) → (b.lt c = false ∧ c.lt b = false)
      → (a.lt c = false ∧ c.lt a = false)) ∧
    (∀ a b : Patient, a.condition ≠ "Critical" → b.condition = "Critical" → a.lt b = true) ∧
    (∃ a b : Patient, a.condition = "Critical" ∧ b.condition ≠ "Critical") := by
  refine ⟨Patient.lt_irrefl, ?_, ?_, ?_, fun a => ⟨Patient.lt_irrefl a, Patient.lt_irrefl a⟩,
    fun a b hab => ⟨hab.2, hab.1⟩, ?_, ?_, ?_⟩
  · intro a b
    by_cases h1 : a.condition = "Critical" <;> by_cases h2 : b.condition = "Critical" <;>
      simp [Patient.lt, h1, h2]
  · intro a b c
    by_cases h1 : a.condition = "Critical" <;> by_cases h2 : b.condition = "Critical" <;>
      by_cases h3 : c.condition = "Critical" <;> simp [Patient.lt, h1, h2, h3]
  · intro a b
    by_cases h1 : a.condition = "Critical" <;> by_cases h2 : b.condition = "Critical" <;>
      simp [Patient.lt, h1, h2]
  · intro a b c hab hbc
    exact ⟨Patient.lt_neg_trans a b c hab.1 hbc.1, Patient.lt_neg_trans c b a hbc.2 hab.2⟩
  · intro a b h1 h2
    simp [Patient.lt, h1, h2]
  · exact ⟨⟨1, "A", 30, "Critical", "01-01-2024"⟩, ⟨2, "B", 40, "Stable", "02-01-2024"⟩,
      by decide, by decide⟩
